import Mathlib

/-!
# Verification of the Time-Tracker session engine

Shallow embedding of `src/window_tracker.py` and `src/visualize_projects.py`.

Modelling conventions:
* Python strings are Lean `String`s; all character-level work is done on
  `String.data : List Char` with bespoke executable helpers, so every
  definition evaluates by kernel reduction.
* `datetime.now()` values are modelled as `Nat` seconds since the epoch;
  `strftime('%Y-%m-%d %H:%M:%S')` is modelled by `fmtTime`, a faithful
  proleptic-Gregorian rendering of such an epoch count.
* Python whitespace / case handling is modelled on the ASCII fragment
  (window titles and log data in this program are handled char-by-char;
  the source never relies on non-ASCII case folding).
* A persisted log file is modelled as its list of lines (without
  terminators); `csv.writer` / `csv.reader` are modelled by a minimal-quoting
  CSV encoder and a single-line CSV field splitter.  Fields containing
  newline or carriage-return characters would span several physical lines
  on disk, which a list-of-lines model cannot represent; theorems about
  round-trips therefore hypothesise newline-free fields.
* Python exceptions are modelled with `Except`: `int(...)` on a
  non-numeric string is `pyIntS = none`, and the uncaught `ValueError` it
  raises inside `load_existing_sessions` becomes an `Except.error` result.
-/

/-! ## Character and string helpers (Python semantics) -/

/-- The dash-family separators of the regex `[-–—]` in `extract_project_name`. -/
def isDashSep (c : Char) : Bool := c = '-' || c = '–' || c = '—'

/-- ASCII fragment of Python regex `\s` / `str.strip()` whitespace. -/
def isPyWs (c : Char) : Bool :=
  c = ' ' || c = '\t' || c = '\n' || c = '\r' || c = '\x0b' || c = '\x0c'

/-- The characters replaced by `re.sub(r'[<>:"/\\|?*]', '_', ...)`. -/
def isIllegalFileChar (c : Char) : Bool :=
  c = '<' || c = '>' || c = ':' || c = '"' || c = '/' || c = '\\' ||
  c = '|' || c = '?' || c = '*'

/-- Prefix test on character lists. -/
def prefixCs : List Char → List Char → Bool
  | [], _ => true
  | _ :: _, [] => false
  | a :: as, b :: bs => a == b && prefixCs as bs

/-- Python `s.startswith(p)`. -/
def startsWithS (p s : String) : Bool := prefixCs p.data s.data

/-- Drop trailing characters satisfying `p`. -/
def dropTrail (p : Char → Bool) (cs : List Char) : List Char :=
  (cs.reverse.dropWhile p).reverse

/-- Python `s.strip()` on a character list. -/
def pyStripCs (cs : List Char) : List Char :=
  dropTrail isPyWs (cs.dropWhile isPyWs)

/-- Python `s.strip()`. -/
def pyStripS (s : String) : String := String.mk (pyStripCs s.data)

/-- Python `s.lower()` (ASCII fragment). -/
def pyLower (s : String) : String := String.mk (s.data.map Char.toLower)

/-- Python substring containment `needle in hay`. -/
def containsSub (n : List Char) : List Char → Bool
  | [] => n.isEmpty
  | c :: r => prefixCs n (c :: r) || containsSub n r

/-- Python `hay.__contains__(needle)` on strings. -/
def pyInStr (needle hay : String) : Bool := containsSub needle.data hay.data

/-- Everything after the first `':'`; models `s.split(':', 1)[1]` at the
call sites of `load_existing_sessions`, which guarantee a colon exists. -/
def afterFirstColon : List Char → List Char
  | [] => []
  | c :: r => if c = ':' then r else afterFirstColon r

/-- Fuelled worker for Python `str.split(sep)` with a non-empty separator. -/
def splitSepAux (sep : List Char) : Nat → List Char → List Char → List (List Char)
  | 0, acc, rest => [acc.reverse ++ rest]
  | _ + 1, acc, [] => [acc.reverse]
  | fuel + 1, acc, c :: r =>
    if prefixCs sep (c :: r) then
      acc.reverse :: splitSepAux sep fuel [] ((c :: r).drop sep.length)
    else
      splitSepAux sep fuel (c :: acc) r

/-- Python `s.split(sep)` for a non-empty separator: split on every
non-overlapping occurrence, left to right. -/
def pySplit (sep s : String) : List String :=
  (splitSepAux sep.data (s.data.length + 1) [] s.data).map String.mk

/-! ## Integer printing and parsing (Python `str`/`int`) -/

/-- The decimal digit character for `n < 10`. -/
def decDigit (n : Nat) : Char :=
  match n with
  | 0 => '0' | 1 => '1' | 2 => '2' | 3 => '3' | 4 => '4'
  | 5 => '5' | 6 => '6' | 7 => '7' | 8 => '8' | _ => '9'

/-- Fuelled decimal digit expansion, most significant first. -/
def natDigitsAux : Nat → Nat → List Char
  | 0, _ => []
  | fuel + 1, n =>
    if n < 10 then [decDigit n]
    else natDigitsAux fuel (n / 10) ++ [decDigit (n % 10)]

/-- Decimal digits of a natural number, as written by Python `str`. -/
def natDigits (n : Nat) : List Char := natDigitsAux (n + 1) n

/-- Python `str(i)` for an `int`. -/
def intToStrS (i : Int) : String :=
  if i < 0 then String.mk ('-' :: natDigits i.natAbs) else String.mk (natDigits i.natAbs)

/-- Numeric value of a decimal digit character (only used on digits). -/
def digitVal (c : Char) : Nat := c.toNat - 48

def isDecDigit (c : Char) : Bool := '0' ≤ c && c ≤ '9'

/-- Value of a non-empty all-digit string. -/
def digitsToNat (ds : List Char) : Option Nat :=
  if ds ≠ [] ∧ ds.all isDecDigit then
    some (ds.foldl (fun a c => a * 10 + digitVal c) 0)
  else none

/-- Python `int(s)` on a string: strips whitespace, allows one sign, then
decimal digits; anything else raises `ValueError`, modelled as `none`.
(Underscore digit grouping, accepted by CPython, is not modelled; no log
content in the claims uses it.) -/
def pyIntCs (cs : List Char) : Option Int :=
  match pyStripCs cs with
  | [] => none
  | c :: ds =>
    if c = '+' then (digitsToNat ds).map Int.ofNat
    else if c = '-' then (digitsToNat ds).map fun n => -(n : Int)
    else (digitsToNat (c :: ds)).map Int.ofNat

def pyIntS (s : String) : Option Int := pyIntCs s.data

/-! ## Timestamp formatting and parsing -/

def isLeapYear (y : Nat) : Bool := (y % 4 = 0 && y % 100 ≠ 0) || y % 400 = 0

def daysInMonth (y m : Nat) : Nat :=
  if m = 2 then (if isLeapYear y then 29 else 28)
  else if m = 4 || m = 6 || m = 9 || m = 11 then 30
  else 31

/-- Civil date from a count of days since 1970-01-01 (proleptic Gregorian). -/
def civilFromDays (z0 : Nat) : Nat × Nat × Nat :=
  let z := z0 + 719468
  let era := z / 146097
  let doe := z % 146097
  let yoe := (doe - doe / 1460 + doe / 36524 - doe / 146096) / 365
  let y := yoe + era * 400
  let doy := doe - (365 * yoe + yoe / 4 - yoe / 100)
  let mp := (5 * doy + 2) / 153
  let d := doy - (153 * mp + 2) / 5 + 1
  let m := if mp < 10 then mp + 3 else mp - 9
  (if m ≤ 2 then y + 1 else y, m, d)

/-- Zero-padded two-digit decimal rendering. -/
def pad2 (n : Nat) : String :=
  if n < 10 then String.mk ('0' :: natDigits n) else String.mk (natDigits n)

/-- Model of `datetime.now().strftime('%Y-%m-%d %H:%M:%S')` where the
current time is `t` seconds since the epoch. -/
def fmtTime (t : Nat) : String :=
  let days := t / 86400
  let sod := t % 86400
  let ymd := civilFromDays days
  String.mk (natDigits ymd.1) ++ "-" ++ pad2 ymd.2.1 ++ "-" ++ pad2 ymd.2.2 ++ " " ++
    pad2 (sod / 3600) ++ ":" ++ pad2 (sod % 3600 / 60) ++ ":" ++ pad2 (sod % 60)

/-- A parsed naive datetime, as produced by `datetime.strptime`. -/
structure DT where
  year : Nat
  month : Nat
  day : Nat
  hour : Nat
  minute : Nat
  second : Nat
deriving DecidableEq

/-- Take up to `max` leading decimal digits. -/
def takeDigits : Nat → List Char → (List Char × List Char)
  | 0, cs => ([], cs)
  | _ + 1, [] => ([], [])
  | max + 1, c :: r =>
    if isDecDigit c then
      let p := takeDigits max r
      (c :: p.1, p.2)
    else ([], c :: r)

/-- Value of a digit-run captured by `takeDigits` (empty run is a failure). -/
def digitsValue (ds : List Char) : Option Nat :=
  if ds.isEmpty then none else some (ds.foldl (fun a c => a * 10 + digitVal c) 0)

/-- Model of `datetime.strptime(s, '%Y-%m-%d %H:%M:%S')`: `%Y` is exactly
four digits, the other fields one or two digits, with the range checks
performed by `_strptime` and the `datetime` constructor. -/
def pyStrptime (s : String) : Option DT :=
  let p0 := takeDigits 4 s.data
  match p0.1.length == 4, p0.2 with
  | true, '-' :: r1 =>
    let p1 := takeDigits 2 r1
    match digitsValue p1.1, p1.2 with
    | some mo, '-' :: r2 =>
      let p2 := takeDigits 2 r2
      match digitsValue p2.1, p2.2 with
      | some da, ' ' :: r3 =>
        let p3 := takeDigits 2 r3
        match digitsValue p3.1, p3.2 with
        | some ho, ':' :: r4 =>
          let p4 := takeDigits 2 r4
          match digitsValue p4.1, p4.2 with
          | some mi, ':' :: r5 =>
            let p5 := takeDigits 2 r5
            match digitsValue p5.1, p5.2 with
            | some se, [] =>
              match digitsValue p0.1 with
              | some yr =>
                if 1 ≤ yr ∧ 1 ≤ mo ∧ mo ≤ 12 ∧ 1 ≤ da ∧ da ≤ daysInMonth yr mo ∧
                    ho ≤ 23 ∧ mi ≤ 59 ∧ se ≤ 59 then
                  some ⟨yr, mo, da, ho, mi, se⟩
                else none
              | none => none
            | _, _ => none
          | _, _ => none
        | _, _ => none
      | _, _ => none
    | _, _ => none
  | _, _ => none

/-! ## TitleClassifier: `extract_project_name` (spec name `classify_project`) -/

/-- Index of the first dash-family character at position `≥ start` in `cs`
(the regex group `(.+?)` forces at least one character before the dash). -/
def findDashFrom : List Char → Option Nat
  | [] => none
  | c :: r => if isDashSep c then some 0 else (findDashFrom r).map (· + 1)

/-- Index of the first dash-family character at a position `≥ 1`. -/
def firstDashIdx (cs : List Char) : Option Nat :=
  match cs with
  | [] => none
  | _ :: r => (findDashFrom r).map (· + 1)

/-- Group 1 of `re.search(r'^(.+?)\s*[-–—]\s*', title)`.

The lazy `(.+?)` makes the engine pick the overall-leftmost dash that can
serve as the separator: the first dash at index `d ≥ 1`.  The greedy `\s*`
between the group and the dash shrinks the group to the shortest prefix
`cs.take L` (with `L ≥ 1`) such that positions `L..d` are all whitespace.
`.` does not match a newline, so the match fails — and, since any later
dash only demands a longer prefix, fails for every dash — whenever that
prefix contains `'\n'`. -/
def regexGroup1 (cs : List Char) : Option (List Char) :=
  match firstDashIdx cs with
  | none => none
  | some d =>
    let stripped := dropTrail isPyWs (cs.take d)
    let g := cs.take (max 1 stripped.length)
    if g.contains '\n' then none else some g

/-- The candidate name before the length check in `extract_project_name`:
regex split (or 50-char truncation), `.strip()` of the matched group,
`lstrip('* ')`, and the illegal-character substitution. -/
def processedName (title : String) : List Char :=
  let cs := title.data
  let base :=
    match regexGroup1 cs with
    | some g => pyStripCs g
    | none => cs.take 50
  ((base.dropWhile fun c => c = '*' || c = ' ').map
    fun c => if isIllegalFileChar c then '_' else c)

/-- `extract_project_name` from `src/window_tracker.py` (the spec's
`classify_project`). -/
def extract_project_name (title : String) : String :=
  let p := processedName title
  if p.length < 2 then "Unnamed_Project" else String.mk p

/-! ## TitleClassifier: `get_app_name_from_title` (spec name `classify_app`) -/

/-- The keyword table of `get_app_name_from_title`, in source order. -/
def app_keywords : List (String × String) :=
  [("blender", "Blender"), ("archicad", "ArchiCAD"), ("revit", "Revit"),
   ("autocad", "AutoCAD"), ("sketchup", "SketchUp"), ("rhino", "Rhino"),
   ("3ds max", "3dsMax"), ("lumion", "Lumion"), ("enscape", "Enscape"),
   ("photoshop", "Photoshop"), ("illustrator", "Illustrator"),
   ("chrome", "Chrome"), ("firefox", "Firefox"), ("excel", "Excel"),
   ("word", "Word"), ("powerpoint", "PowerPoint")]

/-- `get_app_name_from_title` from `src/window_tracker.py`. -/
def get_app_name_from_title (window_title : String) : String :=
  let title_lower := pyLower window_title
  match app_keywords.find? (fun kw => pyInStr kw.1 title_lower) with
  | some kw => kw.2
  | none =>
    let parts := pySplit " - " window_title
    if parts.length > 1 then String.mk ((parts.getLastD "").data.take 30)
    else "Unknown_App"

/-- The tracked-application allow-list hard-coded in `run`. -/
def trackedApps : List String :=
  ["blender", "archicad", "revit", "autocad", "sketchup", "rhino",
   "3dsmax", "lumion", "enscape", "photoshop", "illustrator", "vectorworks"]

/-- The filter `get_app_name_from_title(wtitle).lower() in {...}` in `run`. -/
def isTrackedTitle (wt : String) : Bool :=
  trackedApps.contains (pyLower (get_app_name_from_title wt))


/-! ## CSV model (`csv.writer` / `csv.reader`, default dialect)

`csv.writer` quotes a field minimally: only when it contains the
delimiter, the quote character, or a line break; quote characters are
doubled.  `csv.reader` enters quoted mode on a quote at field start,
treats a doubled quote inside quoted mode as a literal quote, and treats
a quote inside a non-empty unquoted field as a literal character. -/

def needsQuote (c : Char) : Bool := c = ',' || c = '"' || c = '\n' || c = '\r'

/-- Double every quote character (`csv` escaping). -/
def escQuotes : List Char → List Char
  | [] => []
  | c :: r => if c = '"' then '"' :: '"' :: escQuotes r else c :: escQuotes r

/-- One CSV field as written by `csv.writer`. -/
def encodeField (f : String) : List Char :=
  if f.data.any needsQuote then '"' :: escQuotes f.data ++ ['"'] else f.data

/-- The comma-joined fields of one CSV row. -/
def encodeRowCs : List String → List Char
  | [] => []
  | [f] => encodeField f
  | f :: rest => encodeField f ++ ',' :: encodeRowCs rest

/-- One CSV row (line) as written by `csv.writer.writerow`. -/
def encodeRow (fields : List String) : String :=
  String.mk (encodeRowCs fields)

/-- Parser mode of the `csv.reader` field splitter: outside quotes,
inside quotes, or inside quotes having just read a quote character
(which closes the section unless doubled). -/
inductive CsvMode where
  | plain : CsvMode
  | quoted : CsvMode
  | postq : CsvMode
deriving DecidableEq

/-- The `csv.reader` field splitter for a single physical line.  In plain
mode a quote opens quoting only at field start (otherwise it is
literal); in quoted mode a doubled quote is a literal quote and a single
quote closes the section, after which remaining characters of the field
are taken literally. -/
def csvSplit : CsvMode → List Char → List Char → List String
  | _, acc, [] => [String.mk acc.reverse]
  | .plain, acc, c :: r =>
    if c = ',' then String.mk acc.reverse :: csvSplit .plain [] r
    else if c = '"' then
      (if acc.isEmpty then csvSplit .quoted acc r else csvSplit .plain ('"' :: acc) r)
    else csvSplit .plain (c :: acc) r
  | .quoted, acc, c :: r =>
    if c = '"' then csvSplit .postq acc r else csvSplit .quoted (c :: acc) r
  | .postq, acc, c :: r =>
    if c = '"' then csvSplit .quoted ('"' :: acc) r
    else if c = ',' then String.mk acc.reverse :: csvSplit .plain [] r
    else csvSplit .plain (c :: acc) r

/-- Parse one physical line into CSV fields. -/
def decodeRow (line : String) : List String := csvSplit .plain [] line.data


/-! ## SessionStore: the persisted log format -/

/-- One closed session as held in `self.sessions[proj]`: the tracker keeps
`start`/`end` as already-formatted strings (`strftime` output on close,
raw text on load) and the duration as an `int`.  The Python dict key
`'end'` is the Lean field `stop`. -/
structure SessionRec where
  start : String
  stop : String
  duration : Int
  window_title : String
deriving DecidableEq

/-- `sum(s['duration'] for s in self.sessions[proj])`. -/
def totalDuration (rows : List SessionRec) : Int :=
  rows.foldl (fun a s => a + s.duration) 0

/-- The full file content written by `save_session_log` (as lines):
metadata header, column comment, CSV header row, then one row per session. -/
def saveLines (created lastChanged : String) (rows : List SessionRec) : List String :=
  ["# Created: " ++ created,
   "# Last changed: " ++ lastChanged,
   "# Total time across all sessions (sec): " ++ intToStrS (totalDuration rows),
   "# Columns: session_start, session_end, session_duration_sec, window_title",
   encodeRow ["session_start", "session_end", "session_duration_sec", "window_title"]] ++
  rows.map fun s => encodeRow [s.start, s.stop, intToStrS s.duration, s.window_title]

/-- Log-file metadata as held in `self.log_meta[proj]`: a Python dict that
may lack either key. -/
structure MetaOpt where
  created : Option String
  last_changed : Option String
deriving DecidableEq

/-- The metadata value `line.strip().split(':', 1)[1].strip()`. -/
def metaValue (line : String) : String :=
  String.mk (pyStripCs (afterFirstColon (pyStripCs line.data)))

/-- The first pass of `load_existing_sessions` over a log file: scan lines
for `# Created:` / `# Last changed:` until the first non-comment,
non-blank line. -/
def loadMetaLoop : List String → MetaOpt → MetaOpt
  | [], m => m
  | l :: r, m =>
    if startsWithS "# Created:" l then
      loadMetaLoop r { m with created := some (metaValue l) }
    else if startsWithS "# Last changed:" l then
      loadMetaLoop r { m with last_changed := some (metaValue l) }
    else if !startsWithS "#" l && pyStripS l ≠ "" then m
    else loadMetaLoop r m

/-- The row loop of `load_existing_sessions`: rows with fewer than three
fields are skipped, but `int(row[2])` on a non-integer duration raises an
uncaught `ValueError` (modelled as `Except.error`), aborting the load. -/
def parseRowsT : List (List String) → List SessionRec → Except String (List SessionRec)
  | [], acc => .ok acc
  | row :: rest, acc =>
    match row with
    | a :: b :: c :: tail =>
      match pyIntS c with
      | some n => parseRowsT rest (acc ++ [⟨a, b, n, tail.headD ""⟩])
      | none => .error "ValueError"
    | _ => parseRowsT rest acc

/-- The second pass of `load_existing_sessions` over one log file: filter
out lines whose first character is `'#'`, skip the CSV header row, parse
the rest.  (In the source the `ValueError` propagates out of
`load_existing_sessions` and aborts `__init__`.) -/
def load_existing_sessions_rows (lines : List String) : Except String (List SessionRec) :=
  match (lines.filter fun l => !startsWithS "#" l).map decodeRow with
  | [] => .ok []
  | _header :: rows => parseRowsT rows []

/-- The metadata result of `load_existing_sessions` for one file:
`meta if meta else {'created': now, 'last_changed': now}`. -/
def load_existing_sessions_meta (lines : List String) (now : Nat) : MetaOpt :=
  let m := loadMetaLoop lines ⟨none, none⟩
  if m.created = none ∧ m.last_changed = none then
    ⟨some (fmtTime now), some (fmtTime now)⟩
  else m

/-! ## The visualizer's reader (`read_project_logs`, one file) -/

/-- One session as built by `read_project_logs` (the `date` key is the
date part of `start`; it is derived data and not modelled separately). -/
structure VSession where
  start : DT
  stop : DT
  duration : Int
deriving DecidableEq

/-- The body of the `try` block in `read_project_logs` for one CSV row;
any failure (`strptime`, `int`, or a missing column) yields `none`, which
the `except` clause turns into skipping the row. -/
def vizParseRow (row : List String) : Option VSession :=
  match row with
  | a :: b :: c :: _ =>
    match pyStrptime a, pyStrptime b, pyIntS c with
    | some s, some e, some d => some ⟨s, e, d⟩
    | _, _, _ => none
  | _ => none

/-- `read_project_logs` restricted to one already-read file (list of
lines): drop `#` lines, take the remaining first line as the
`csv.DictReader` header, parse each row inside `try`/`except`, skipping
failures, and accumulate sessions and `total_seconds`. -/
def read_project_logs_file (lines : List String) : List VSession × Int :=
  match (lines.filter fun l => !startsWithS "#" l).map decodeRow with
  | [] => ([], 0)
  | _header :: rows =>
    rows.foldl
      (fun acc row =>
        match vizParseRow row with
        | some v => (acc.1 ++ [v], acc.2 + v.duration)
        | none => acc)
      ([], 0)

/-! ## SessionTracker state -/

/-- One in-progress session: `self.session_active[proj]`. -/
structure ActiveInfo where
  start : Nat
  window_title : String
deriving DecidableEq

/-- Association-list lookup with Python-dict semantics (keys are unique in
every reachable state). -/
def lookupA {α : Type} (k : String) : List (String × α) → Option α
  | [] => none
  | p :: r => if p.1 = k then some p.2 else lookupA k r

/-- Remove the entry for `k` (Python `dict.pop`). -/
def eraseA {α : Type} (k : String) : List (String × α) → List (String × α)
  | [] => []
  | p :: r => if p.1 = k then r else p :: eraseA k r

/-- Python dict assignment: update in place, or append a new key. -/
def setA {α : Type} (k : String) (v : α) : List (String × α) → List (String × α)
  | [] => [(k, v)]
  | p :: r => if p.1 = k then (k, v) :: r else p :: setA k v r

def keysOf {α : Type} (l : List (String × α)) : List String := l.map Prod.fst

/-- The whole in-memory state of a `WindowTimeTracker` plus the log
folder's files, keyed by file name. -/
structure TState where
  session_active : List (String × ActiveInfo)
  sessions : List (String × List SessionRec)
  log_meta : List (String × MetaOpt)
  files : List (String × List String)
deriving DecidableEq

/-- `self.sessions[proj]` (`defaultdict(list)` read). -/
def getSessions (st : TState) (proj : String) : List SessionRec :=
  (lookupA proj st.sessions).getD []

/-- `save_session_log` from `src/window_tracker.py`: no-op on an empty
session list, otherwise recompute the total, keep an existing `created`
(falling back to the first session's start), stamp `last_changed := now`,
and rewrite the project's log file. -/
def save_session_log (proj : String) (now : Nat) (st : TState) : TState :=
  match getSessions st proj with
  | [] => st
  | r0 :: rs =>
    let created := (((lookupA proj st.log_meta).map MetaOpt.created).join).getD r0.start
    let lastChanged := fmtTime now
    { st with
      log_meta := setA proj ⟨some created, some lastChanged⟩ st.log_meta,
      files := setA (proj ++ "_log.csv") (saveLines created lastChanged (r0 :: rs)) st.files }

/-- `on_window_open` from `src/window_tracker.py`. -/
def on_window_open (window_title : String) (now : Nat) (st : TState) : TState :=
  let proj := extract_project_name window_title
  match lookupA proj st.session_active with
  | some _ => st
  | none =>
    { st with session_active := st.session_active ++ [(proj, ⟨now, window_title⟩)] }

/-- The session record built by `on_window_close` for active info `i`
closed at `now` via the stored window title. -/
def mkClose (i : ActiveInfo) (now : Nat) : SessionRec :=
  ⟨fmtTime i.start, fmtTime now, (now : Int) - (i.start : Int), i.window_title⟩

/-- `on_window_close` from `src/window_tracker.py`. -/
def on_window_close (window_title : String) (now : Nat) (st : TState) : TState :=
  let proj := extract_project_name window_title
  match lookupA proj st.session_active with
  | none => st
  | some i =>
    let st1 : TState :=
      { st with
        session_active := eraseA proj st.session_active,
        sessions :=
          setA proj
            (getSessions st proj ++
              [⟨fmtTime i.start, fmtTime now, (now : Int) - (i.start : Int), window_title⟩])
            st.sessions }
    save_session_log proj now st1

/-- Close, in order, each listed project via its stored window title
(`for proj in ...: wtitle = self.session_active[proj]['window_title'];
self.on_window_close(wtitle)`). -/
def closeMany (ps : List String) (now : Nat) (st : TState) : TState :=
  ps.foldl
    (fun s p =>
      match lookupA p s.session_active with
      | some i => on_window_close i.window_title now s
      | none => s)
    st

/-- The body of the `for wtitle in current_windows` loop in `run`: on a
tracked title, add its project to `tracked_now` and open it if it has no
active session. -/
def openStep (now : Nat) (acc : TState × List String) (wt : String) : TState × List String :=
  if isTrackedTitle wt then
    let proj := extract_project_name wt
    let st' :=
      if (lookupA proj acc.1.session_active).isSome then acc.1
      else on_window_open wt now acc.1
    (st', acc.2 ++ [proj])
  else acc

/-- One iteration of the `while True` body of `run` at time `now` with
`current_windows = titles`: the open phase collects `tracked_now` and
opens unseen tracked projects; the close phase closes every active
project not seen this cycle.  (`closed_projs` is a Python set; its
iteration order is unobservable because distinct projects are closed
independently, so we iterate in insertion order.) -/
def pollOnce (titles : List String) (now : Nat) (st : TState) : TState :=
  let step := titles.foldl (openStep now) (st, ([] : List String))
  let closedProjs :=
    keysOf (step.1.session_active.filter fun pi => !step.2.contains pi.1)
  closeMany closedProjs now step.1

/-- The `except KeyboardInterrupt` handler of `run`: close every
remaining active session at the current time. -/
def shutdownAll (now : Nat) (st : TState) : TState :=
  closeMany (keysOf st.session_active) now st

/-- One cycle of `run` including the window enumeration: the `try` in
`run` catches only `KeyboardInterrupt`, so an exception raised by
`get_all_open_windows` propagates and the loop never reaches the next
cycle (nor the interrupt handler). -/
def pollCycleE (enumResult : Except Unit (List String)) (now : Nat) (st : TState) :
    Except Unit TState :=
  match enumResult with
  | .error e => .error e
  | .ok titles => .ok (pollOnce titles now st)

/-- Tracker state after `__init__` with an empty (or absent) log folder. -/
def initState : TState := ⟨[], [], [], []⟩

/-- The operations a tracker performs after startup. -/
inductive TOp where
  | poll : List String → Nat → TOp
  | shut : Nat → TOp

def applyOp (st : TState) : TOp → TState
  | .poll titles now => pollOnce titles now st
  | .shut now => shutdownAll now st

def runOps (ops : List TOp) : TState := ops.foldl applyOp initState

/-- State well-formedness: active-session keys are unique (Python dict)
and every active entry is keyed by the classification of its stored
window title (it was inserted by `on_window_open`). -/
def WF (st : TState) : Prop :=
  (keysOf st.session_active).Nodup ∧
  ∀ pi ∈ st.session_active, extract_project_name pi.2.window_title = pi.1

/-- Bool form of "project `p` is observed this cycle": some window title
passes the tracked-app filter and classifies to `p`. -/
def observedIn (p : String) (titles : List String) : Bool :=
  titles.any fun wt => isTrackedTitle wt && extract_project_name wt == p



/-! ## Cleanliness predicates for the persistence round trip

A field containing `'\n'` or `'\r'` is quoted by `csv.writer` and spans
several physical lines on disk, which the list-of-lines model cannot
represent (and which the `'#'` line filter of the loader would corrupt);
the round-trip theorems therefore assume fields free of both.  A data row
whose encoded line starts with `'#'` would be swallowed by that filter,
so that is excluded as well (real rows start with a `strftime` digit). -/

def cleanStr (s : String) : Bool := s.data.all fun c => !(c = '\n' || c = '\r')

/-- A session row that survives the line-based log format unchanged. -/
def cleanRowB (s : SessionRec) : Bool :=
  cleanStr s.start && cleanStr s.stop && cleanStr s.window_title &&
  !startsWithS "#" (encodeRow [s.start, s.stop, intToStrS s.duration, s.window_title])

/-- A metadata value (a `strftime` timestamp in practice) that the header
parser recovers verbatim: newline-free and already stripped. -/
def cleanMetaB (s : String) : Bool := cleanStr s && (pyStripS s == s)

/-- A log file whose third data row has the non-integer duration `"abc"`
(the first row is valid, the second has too few columns, the third has a
malformed timestamp but a numeric duration). -/
def corruptLog : List String :=
  ["# Created: 2024-01-01 10:00:00",
   "# Last changed: 2024-01-01 10:00:00",
   "# Total time across all sessions (sec): 100",
   "# Columns: session_start, session_end, session_duration_sec, window_title",
   "session_start,session_end,session_duration_sec,window_title",
   "2024-01-01 09:00:00,2024-01-01 09:01:40,100,Proj - Blender",
   "2024-01-01 10:30:00,2024-01-01 10:31:00",
   "notadate,2024-01-01 11:00:00,50,Proj - Blender",
   "2024-01-01 12:00:00,2024-01-01 12:00:30,abc,Proj - Blender"]

/-! # Theorems

## Association-list lemmas (Python dict semantics) -/

theorem lookupA_eq_none_iff {α : Type} (k : String) (l : List (String × α)) :
    lookupA k l = none ↔ k ∉ keysOf l := by
  induction l with
  | nil => simp [lookupA, keysOf]
  | cons p r ih =>
    by_cases h : p.1 = k
    · simp [lookupA, keysOf, h]
    · simp only [lookupA, if_neg h, keysOf, List.map_cons, List.mem_cons]
      constructor
      · intro hn
        push_neg
        exact ⟨fun he => h he.symm, by simpa [keysOf] using ih.mp hn⟩
      · intro hn
        push_neg at hn
        exact ih.mpr (by simpa [keysOf] using hn.2)

theorem lookupA_mem {α : Type} {k : String} {l : List (String × α)} {v : α}
    (h : lookupA k l = some v) : (k, v) ∈ l := by
  induction l with
  | nil => simp [lookupA] at h
  | cons p r ih =>
    by_cases hp : p.1 = k
    · simp [lookupA, hp] at h
      subst hp h
      exact List.mem_cons_self _ _
    · simp [lookupA, hp] at h
      exact List.mem_cons_of_mem _ (ih h)

theorem mem_keysOf_of_lookupA {α : Type} {k : String} {l : List (String × α)} {v : α}
    (h : lookupA k l = some v) : k ∈ keysOf l := by
  have := lookupA_mem h
  exact List.mem_map_of_mem Prod.fst this

theorem lookupA_setA_self {α : Type} (k : String) (v : α) (l : List (String × α)) :
    lookupA k (setA k v l) = some v := by
  induction l with
  | nil => simp [setA, lookupA]
  | cons p r ih => by_cases h : p.1 = k <;> simp [setA, lookupA, h, ih]

theorem lookupA_setA_ne {α : Type} {q k : String} (h : q ≠ k) (v : α) (l : List (String × α)) :
    lookupA q (setA k v l) = lookupA q l := by
  have h' : k ≠ q := Ne.symm h
  induction l with
  | nil => simp [setA, lookupA, h']
  | cons p r ih =>
    by_cases hp : p.1 = k
    · subst hp
      simp [setA, lookupA, h']
    · simp [setA, lookupA, hp, ih]

theorem lookupA_eraseA_ne {α : Type} {q k : String} (h : q ≠ k) (l : List (String × α)) :
    lookupA q (eraseA k l) = lookupA q l := by
  have h' : k ≠ q := Ne.symm h
  induction l with
  | nil => simp [eraseA]
  | cons p r ih =>
    by_cases hp : p.1 = k
    · subst hp
      simp [eraseA, lookupA, h']
    · simp [eraseA, lookupA, hp, ih]

theorem eraseA_sublist {α : Type} (k : String) (l : List (String × α)) :
    (eraseA k l).Sublist l := by
  induction l with
  | nil => simp [eraseA]
  | cons p r ih =>
    by_cases hp : p.1 = k
    · simp only [eraseA, if_pos hp]
      exact List.sublist_cons_self p r
    · simp only [eraseA, if_neg hp]
      exact ih.cons₂ p

theorem lookupA_eraseA_self {α : Type} {k : String} {l : List (String × α)}
    (hnd : (keysOf l).Nodup) : lookupA k (eraseA k l) = none := by
  induction l with
  | nil => simp [eraseA, lookupA]
  | cons p r ih =>
    simp only [keysOf, List.map_cons, List.nodup_cons] at hnd
    by_cases hp : p.1 = k
    · subst hp
      rw [lookupA_eq_none_iff]
      simpa [eraseA, keysOf] using hnd.1
    · simp [eraseA, hp, lookupA, ih hnd.2]

theorem lookupA_append_some {α : Type} {k : String} {l₁ : List (String × α)} {v : α}
    (l₂ : List (String × α)) (h : lookupA k l₁ = some v) :
    lookupA k (l₁ ++ l₂) = some v := by
  induction l₁ with
  | nil => simp [lookupA] at h
  | cons p r ih =>
    by_cases hp : p.1 = k <;> simp [lookupA, hp] at h ⊢
    · exact h
    · exact ih h

theorem lookupA_append_none {α : Type} {k : String} {l₁ : List (String × α)}
    (l₂ : List (String × α)) (h : lookupA k l₁ = none) :
    lookupA k (l₁ ++ l₂) = lookupA k l₂ := by
  induction l₁ with
  | nil => simp
  | cons p r ih =>
    by_cases hp : p.1 = k <;> simp [lookupA, hp] at h ⊢
    exact ih h

theorem lookupA_all_none_nil {α : Type} {l : List (String × α)}
    (h : ∀ k, lookupA k l = none) : l = [] := by
  cases l with
  | nil => rfl
  | cons p r =>
    have := h p.1
    simp [lookupA] at this

/-- Right-cancellation of string append, used for log-file-name keys. -/
theorem strAppend_right_cancel {a b t : String} (h : a ++ t = b ++ t) : a = b := by
  cases a with
  | mk as =>
    cases b with
    | mk bs =>
      cases t with
      | mk ts =>
        have hd : as ++ ts = bs ++ ts := congrArg String.data h
        exact congrArg String.mk (List.append_cancel_right hd)

theorem logName_ne {p q : String} (h : q ≠ p) : q ++ "_log.csv" ≠ p ++ "_log.csv" :=
  fun hh => h (strAppend_right_cancel hh)

/-! ## `save_session_log` and `on_window_close` characterizations -/

theorem save_active (proj : String) (now : Nat) (st : TState) :
    (save_session_log proj now st).session_active = st.session_active := by
  unfold save_session_log
  cases h : getSessions st proj <;> simp

theorem save_sessions (proj : String) (now : Nat) (st : TState) :
    (save_session_log proj now st).sessions = st.sessions := by
  unfold save_session_log
  cases h : getSessions st proj <;> simp

theorem getSessions_save (proj : String) (now : Nat) (st : TState) (q : String) :
    getSessions (save_session_log proj now st) q = getSessions st q := by
  unfold getSessions
  rw [save_sessions]

theorem save_files_other {proj q : String} (hq : q ≠ proj) (now : Nat) (st : TState) :
    lookupA (q ++ "_log.csv") (save_session_log proj now st).files =
      lookupA (q ++ "_log.csv") st.files := by
  unfold save_session_log
  cases h : getSessions st proj with
  | nil => simp
  | cons r0 rs =>
    simp only
    exact lookupA_setA_ne (logName_ne hq) _ _

theorem save_files_self (proj : String) (now : Nat) (st : TState)
    (hne : getSessions st proj ≠ []) :
    ∃ c, lookupA (proj ++ "_log.csv") (save_session_log proj now st).files =
      some (saveLines c (fmtTime now) (getSessions st proj)) := by
  unfold save_session_log
  cases hg : getSessions st proj with
  | nil => exact absurd hg hne
  | cons r0 rs =>
    refine ⟨(((lookupA proj st.log_meta).map MetaOpt.created).join).getD r0.start, ?_⟩
    exact lookupA_setA_self _ _ _

theorem WF_save (proj : String) (now : Nat) {st : TState} (hwf : WF st) :
    WF (save_session_log proj now st) := by
  unfold WF at hwf ⊢
  rw [save_active]
  exact hwf

theorem WF_erase_set {st : TState} (p : String) (v : List (String × List SessionRec))
    (hwf : WF st) :
    WF { st with session_active := eraseA p st.session_active, sessions := v } := by
  obtain ⟨h1, h2⟩ := hwf
  refine ⟨?_, ?_⟩
  · exact ((eraseA_sublist p st.session_active).map Prod.fst).nodup h1
  · intro pi hpi
    exact h2 pi ((eraseA_sublist p st.session_active).subset hpi)

theorem close_some_eq (wt : String) (now : Nat) (st : TState) (i : ActiveInfo)
    (h : lookupA (extract_project_name wt) st.session_active = some i) :
    on_window_close wt now st =
      save_session_log (extract_project_name wt) now
        { st with
          session_active := eraseA (extract_project_name wt) st.session_active,
          sessions :=
            setA (extract_project_name wt)
              (getSessions st (extract_project_name wt) ++
                [⟨fmtTime i.start, fmtTime now, (now : Int) - (i.start : Int), wt⟩])
              st.sessions } := by
  simp only [on_window_close, h]

theorem close_none_eq (wt : String) (now : Nat) (st : TState)
    (h : lookupA (extract_project_name wt) st.session_active = none) :
    on_window_close wt now st = st := by
  simp only [on_window_close, h]

theorem close_active_some (wt : String) (now : Nat) (st : TState) (i : ActiveInfo)
    (h : lookupA (extract_project_name wt) st.session_active = some i) :
    (on_window_close wt now st).session_active =
      eraseA (extract_project_name wt) st.session_active := by
  rw [close_some_eq wt now st i h, save_active]

theorem close_sessions_self (wt : String) (now : Nat) (st : TState) (i : ActiveInfo)
    (h : lookupA (extract_project_name wt) st.session_active = some i) :
    getSessions (on_window_close wt now st) (extract_project_name wt) =
      getSessions st (extract_project_name wt) ++
        [⟨fmtTime i.start, fmtTime now, (now : Int) - (i.start : Int), wt⟩] := by
  rw [close_some_eq wt now st i h, getSessions_save]
  unfold getSessions
  simp [lookupA_setA_self]

theorem close_sessions_other {q : String} (wt : String) (now : Nat) (st : TState)
    (i : ActiveInfo) (h : lookupA (extract_project_name wt) st.session_active = some i)
    (hq : q ≠ extract_project_name wt) :
    getSessions (on_window_close wt now st) q = getSessions st q := by
  rw [close_some_eq wt now st i h, getSessions_save]
  unfold getSessions
  simp [lookupA_setA_ne hq]

theorem close_files_other {q : String} (wt : String) (now : Nat) (st : TState)
    (i : ActiveInfo) (h : lookupA (extract_project_name wt) st.session_active = some i)
    (hq : q ≠ extract_project_name wt) :
    lookupA (q ++ "_log.csv") (on_window_close wt now st).files =
      lookupA (q ++ "_log.csv") st.files := by
  rw [close_some_eq wt now st i h, save_files_other hq]

theorem close_files_self (wt : String) (now : Nat) (st : TState) (i : ActiveInfo)
    (h : lookupA (extract_project_name wt) st.session_active = some i) :
    ∃ c, lookupA (extract_project_name wt ++ "_log.csv") (on_window_close wt now st).files =
      some (saveLines c (fmtTime now)
        (getSessions (on_window_close wt now st) (extract_project_name wt))) := by
  rw [close_sessions_self wt now st i h, close_some_eq wt now st i h]
  have hs :
      getSessions
        { st with
          session_active := eraseA (extract_project_name wt) st.session_active,
          sessions :=
            setA (extract_project_name wt)
              (getSessions st (extract_project_name wt) ++
                [⟨fmtTime i.start, fmtTime now, (now : Int) - (i.start : Int), wt⟩])
              st.sessions } (extract_project_name wt) =
      getSessions st (extract_project_name wt) ++
        [⟨fmtTime i.start, fmtTime now, (now : Int) - (i.start : Int), wt⟩] := by
    unfold getSessions
    simp [lookupA_setA_self]
  obtain ⟨c, hc⟩ := save_files_self (extract_project_name wt) now _ (by rw [hs]; simp)
  rw [hs] at hc
  exact ⟨c, hc⟩

theorem close_WF (wt : String) (now : Nat) {st : TState} (i : ActiveInfo)
    (h : lookupA (extract_project_name wt) st.session_active = some i) (hwf : WF st) :
    WF (on_window_close wt now st) := by
  rw [close_some_eq wt now st i h]
  exact WF_save _ now (WF_erase_set _ _ hwf)

/-! ## The close loop (`closed_projs` iteration / interrupt handler) -/

/-- Master specification of `closeMany`: well-formedness is preserved;
projects not listed (or already inactive) keep their active entry,
session history and log file; listed active projects are closed exactly
once — their active entry disappears, exactly one session record is
appended (closing at `now`), and their log file is rewritten to match the
final in-memory history. -/
theorem closeMany_spec (ps : List String) (now : Nat) :
    ∀ st : TState, WF st →
    WF (closeMany ps now st) ∧
    (∀ q, q ∉ ps →
      lookupA q (closeMany ps now st).session_active = lookupA q st.session_active ∧
      getSessions (closeMany ps now st) q = getSessions st q ∧
      lookupA (q ++ "_log.csv") (closeMany ps now st).files =
        lookupA (q ++ "_log.csv") st.files) ∧
    (∀ q, lookupA q st.session_active = none →
      lookupA q (closeMany ps now st).session_active = none ∧
      getSessions (closeMany ps now st) q = getSessions st q ∧
      lookupA (q ++ "_log.csv") (closeMany ps now st).files =
        lookupA (q ++ "_log.csv") st.files) ∧
    (∀ q i, q ∈ ps → lookupA q st.session_active = some i →
      lookupA q (closeMany ps now st).session_active = none ∧
      getSessions (closeMany ps now st) q = getSessions st q ++ [mkClose i now] ∧
      ∃ c, lookupA (q ++ "_log.csv") (closeMany ps now st).files =
        some (saveLines c (fmtTime now) (getSessions (closeMany ps now st) q))) := by
  induction ps with
  | nil =>
    intro st hwf
    exact ⟨hwf, fun q _ => ⟨rfl, rfl, rfl⟩, fun q hq => ⟨hq, rfl, rfl⟩,
      fun q i hq _ => absurd hq (List.not_mem_nil q)⟩
  | cons p rest ih =>
    intro st hwf
    cases hp : lookupA p st.session_active with
    | none =>
      have hstep : closeMany (p :: rest) now st = closeMany rest now st := by
        simp only [closeMany, List.foldl_cons, hp]
      obtain ⟨W1, P1, N1, M1⟩ := ih st hwf
      rw [hstep]
      refine ⟨W1, ?_, N1, ?_⟩
      · intro q hq
        exact P1 q fun h => hq (List.mem_cons_of_mem _ h)
      · intro q i hqmem hqlook
        rcases List.mem_cons.mp hqmem with hqp | hqr
        · rw [hqp] at hqlook
          rw [hqlook] at hp
          exact Option.noConfusion hp
        · exact M1 q i hqr hqlook
    | some i =>
      have hip : extract_project_name i.window_title = p := hwf.2 (p, i) (lookupA_mem hp)
      have h' : lookupA (extract_project_name i.window_title) st.session_active = some i := by
        rw [hip]; exact hp
      have hstep : closeMany (p :: rest) now st =
          closeMany rest now (on_window_close i.window_title now st) := by
        simp only [closeMany, List.foldl_cons, hp]
      set st1 := on_window_close i.window_title now st with hst1
      have hwf1 : WF st1 := close_WF _ now i h' hwf
      have hact1 : st1.session_active = eraseA p st.session_active := by
        have := close_active_some _ now st i h'
        rwa [hip] at this
      have hsessP : getSessions st1 p = getSessions st p ++ [mkClose i now] := by
        have := close_sessions_self _ now st i h'
        rw [hip] at this
        exact this
      have hsessO : ∀ q, q ≠ p → getSessions st1 q = getSessions st q := by
        intro q hq
        exact close_sessions_other _ now st i h' (by rwa [hip])
      have hfileO : ∀ q, q ≠ p →
          lookupA (q ++ "_log.csv") st1.files = lookupA (q ++ "_log.csv") st.files := by
        intro q hq
        exact close_files_other _ now st i h' (by rwa [hip])
      have hfileP : ∃ c, lookupA (p ++ "_log.csv") st1.files =
          some (saveLines c (fmtTime now) (getSessions st1 p)) := by
        have := close_files_self _ now st i h'
        rwa [hip] at this
      have hlook1 : ∀ q, q ≠ p →
          lookupA q st1.session_active = lookupA q st.session_active := by
        intro q hq
        rw [hact1]
        exact lookupA_eraseA_ne hq _
      have hlookp : lookupA p st1.session_active = none := by
        rw [hact1]
        exact lookupA_eraseA_self hwf.1
      obtain ⟨W1, P1, N1, M1⟩ := ih st1 hwf1
      rw [hstep]
      refine ⟨W1, ?_, ?_, ?_⟩
      · intro q hq
        have hqp : q ≠ p := fun he => hq (he ▸ List.mem_cons_self p rest)
        have hqr : q ∉ rest := fun h => hq (List.mem_cons_of_mem _ h)
        obtain ⟨a, b, c⟩ := P1 q hqr
        exact ⟨a.trans (hlook1 q hqp), b.trans (hsessO q hqp), c.trans (hfileO q hqp)⟩
      · intro q hq
        have hqp : q ≠ p := by
          intro he
          rw [he, hp] at hq
          exact Option.noConfusion hq
        obtain ⟨a, b, c⟩ := N1 q ((hlook1 q hqp).trans hq)
        exact ⟨a, b.trans (hsessO q hqp), c.trans (hfileO q hqp)⟩
      · intro q j hqmem hqlook
        by_cases hqp : q = p
        · subst hqp
          have hij : i = j := Option.some.inj (hp.symm.trans hqlook)
          obtain ⟨a, b, c⟩ := N1 q hlookp
          refine ⟨a, ?_, ?_⟩
          · rw [b, hsessP, hij]
          · obtain ⟨c0, hc0⟩ := hfileP
            exact ⟨c0, by rw [c, hc0, b]⟩
        · have hqr : q ∈ rest := (List.mem_cons.mp hqmem).resolve_left hqp
          obtain ⟨a, b, c⟩ := M1 q j hqr ((hlook1 q hqp).trans hqlook)
          refine ⟨a, ?_, c⟩
          rw [b, hsessO q hqp]

/-! ## The open phase (`for wtitle in current_windows`) -/

theorem observedIn_cons (q wt : String) (rest : List String) :
    observedIn q (wt :: rest) =
      ((isTrackedTitle wt && (extract_project_name wt == q)) || observedIn q rest) := rfl

theorem containsStr_iff (l : List String) (a : String) : l.contains a = true ↔ a ∈ l := by
  induction l with
  | nil => simp
  | cons b r ih => simp

theorem open_eq_of_none (wt : String) (now : Nat) (s : TState)
    (hx : lookupA (extract_project_name wt) s.session_active = none) :
    on_window_open wt now s =
      { s with session_active :=
          s.session_active ++ [(extract_project_name wt, ⟨now, wt⟩)] } := by
  simp [on_window_open, hx]

theorem open_eq_of_some (wt : String) (now : Nat) (s : TState) (i : ActiveInfo)
    (hx : lookupA (extract_project_name wt) s.session_active = some i) :
    on_window_open wt now s = s := by
  simp [on_window_open, hx]

theorem open_frame (wt : String) (now : Nat) (s : TState) :
    (on_window_open wt now s).sessions = s.sessions ∧
    (on_window_open wt now s).log_meta = s.log_meta ∧
    (on_window_open wt now s).files = s.files := by
  cases hx : lookupA (extract_project_name wt) s.session_active with
  | some v => rw [open_eq_of_some wt now s v hx]; exact ⟨rfl, rfl, rfl⟩
  | none => rw [open_eq_of_none wt now s hx]; exact ⟨rfl, rfl, rfl⟩

theorem open_WF (wt : String) (now : Nat) {s : TState} (hwf : WF s) :
    WF (on_window_open wt now s) := by
  cases hx : lookupA (extract_project_name wt) s.session_active with
  | some v => rw [open_eq_of_some wt now s v hx]; exact hwf
  | none =>
    rw [open_eq_of_none wt now s hx]
    have hnm : extract_project_name wt ∉ keysOf s.session_active :=
      (lookupA_eq_none_iff _ _).mp hx
    constructor
    · show (keysOf (s.session_active ++ [(extract_project_name wt, ⟨now, wt⟩)])).Nodup
      rw [keysOf, List.map_append]
      refine List.Nodup.append hwf.1 (List.nodup_singleton _) ?_
      intro a ha hb
      simp only [List.map_cons, List.map_nil, List.mem_singleton] at hb
      exact hnm (hb ▸ ha)
    · intro pi hpi
      rcases List.mem_append.mp hpi with hm | hm
      · exact hwf.2 pi hm
      · simp only [List.mem_singleton] at hm
        subst hm
        rfl

theorem openStep_eq_tracked_free (now : Nat) (acc : TState × List String) (wt : String)
    (hw : isTrackedTitle wt = true)
    (ha : lookupA (extract_project_name wt) acc.1.session_active = none) :
    openStep now acc wt = (on_window_open wt now acc.1, acc.2 ++ [extract_project_name wt]) := by
  simp [openStep, hw, ha]

theorem openStep_eq_tracked_busy (now : Nat) (acc : TState × List String) (wt : String)
    (i : ActiveInfo) (hw : isTrackedTitle wt = true)
    (ha : lookupA (extract_project_name wt) acc.1.session_active = some i) :
    openStep now acc wt = (acc.1, acc.2 ++ [extract_project_name wt]) := by
  simp [openStep, hw, ha]

theorem openStep_eq_untracked (now : Nat) (acc : TState × List String) (wt : String)
    (hw : isTrackedTitle wt = false) :
    openStep now acc wt = acc := by
  simp [openStep, hw]

theorem openStep_frame (now : Nat) (acc : TState × List String) (wt : String) :
    (openStep now acc wt).1.sessions = acc.1.sessions ∧
    (openStep now acc wt).1.log_meta = acc.1.log_meta ∧
    (openStep now acc wt).1.files = acc.1.files := by
  by_cases hw : isTrackedTitle wt
  · cases ha : lookupA (extract_project_name wt) acc.1.session_active with
    | some v =>
      rw [openStep_eq_tracked_busy now acc wt v hw ha]
      exact ⟨rfl, rfl, rfl⟩
    | none =>
      rw [openStep_eq_tracked_free now acc wt hw ha]
      exact open_frame wt now acc.1
  · rw [openStep_eq_untracked now acc wt (by simpa using hw)]
    exact ⟨rfl, rfl, rfl⟩

theorem openStep_WF (now : Nat) (acc : TState × List String) (wt : String)
    (hwf : WF acc.1) : WF (openStep now acc wt).1 := by
  by_cases hw : isTrackedTitle wt
  · cases ha : lookupA (extract_project_name wt) acc.1.session_active with
    | some v => rw [openStep_eq_tracked_busy now acc wt v hw ha]; exact hwf
    | none =>
      rw [openStep_eq_tracked_free now acc wt hw ha]
      exact open_WF wt now hwf
  · rw [openStep_eq_untracked now acc wt (by simpa using hw)]
    exact hwf

theorem openStep_lookup_some (now : Nat) (acc : TState × List String) (wt : String)
    {q : String} {i : ActiveInfo} (h : lookupA q acc.1.session_active = some i) :
    lookupA q (openStep now acc wt).1.session_active = some i := by
  by_cases hw : isTrackedTitle wt
  · cases ha : lookupA (extract_project_name wt) acc.1.session_active with
    | some v => rw [openStep_eq_tracked_busy now acc wt v hw ha]; exact h
    | none =>
      rw [openStep_eq_tracked_free now acc wt hw ha, open_eq_of_none wt now acc.1 ha]
      exact lookupA_append_some _ h
  · rw [openStep_eq_untracked now acc wt (by simpa using hw)]
    exact h

theorem openFold_frame (now : Nat) (titles : List String) :
    ∀ acc : TState × List String,
      (titles.foldl (openStep now) acc).1.sessions = acc.1.sessions ∧
      (titles.foldl (openStep now) acc).1.log_meta = acc.1.log_meta ∧
      (titles.foldl (openStep now) acc).1.files = acc.1.files := by
  induction titles with
  | nil => intro acc; exact ⟨rfl, rfl, rfl⟩
  | cons wt rest ih =>
    intro acc
    rw [List.foldl_cons]
    obtain ⟨a, b, c⟩ := ih (openStep now acc wt)
    obtain ⟨a', b', c'⟩ := openStep_frame now acc wt
    exact ⟨a.trans a', b.trans b', c.trans c'⟩

theorem openFold_WF (now : Nat) (titles : List String) :
    ∀ acc : TState × List String, WF acc.1 →
      WF (titles.foldl (openStep now) acc).1 := by
  induction titles with
  | nil => intro acc h; exact h
  | cons wt rest ih =>
    intro acc h
    rw [List.foldl_cons]
    exact ih _ (openStep_WF now acc wt h)

theorem openFold_lookup_some (now : Nat) (titles : List String) :
    ∀ (acc : TState × List String) (q : String) (i : ActiveInfo),
      lookupA q acc.1.session_active = some i →
      lookupA q (titles.foldl (openStep now) acc).1.session_active = some i := by
  induction titles with
  | nil => intro acc q i h; exact h
  | cons wt rest ih =>
    intro acc q i h
    rw [List.foldl_cons]
    exact ih _ q i (openStep_lookup_some now acc wt h)

theorem openFold_tracked (now : Nat) (titles : List String) :
    ∀ (acc : TState × List String) (q : String),
      q ∈ (titles.foldl (openStep now) acc).2 ↔ q ∈ acc.2 ∨ observedIn q titles = true := by
  induction titles with
  | nil => intro acc q; simp [observedIn]
  | cons wt rest ih =>
    intro acc q
    rw [List.foldl_cons, ih]
    by_cases hw : isTrackedTitle wt
    · have h2 : (openStep now acc wt).2 = acc.2 ++ [extract_project_name wt] := by
        cases ha : lookupA (extract_project_name wt) acc.1.session_active with
        | some v => rw [openStep_eq_tracked_busy now acc wt v hw ha]
        | none => rw [openStep_eq_tracked_free now acc wt hw ha]
      rw [h2]
      simp only [List.mem_append, List.mem_singleton, observedIn_cons, Bool.or_eq_true,
        Bool.and_eq_true, beq_iff_eq, hw, true_and]
      constructor
      · rintro ((h | h) | h)
        · exact Or.inl h
        · exact Or.inr (Or.inl h.symm)
        · exact Or.inr (Or.inr h)
      · rintro (h | h | h)
        · exact Or.inl (Or.inl h)
        · exact Or.inl (Or.inr h.symm)
        · exact Or.inr h
    · rw [openStep_eq_untracked now acc wt (by simpa using hw)]
      simp [observedIn_cons, hw]

theorem openFold_opens (now : Nat) (titles : List String) :
    ∀ (acc : TState × List String) (q : String),
      lookupA q acc.1.session_active = none → observedIn q titles = true →
      ∃ wt, isTrackedTitle wt = true ∧ extract_project_name wt = q ∧
        lookupA q (titles.foldl (openStep now) acc).1.session_active = some ⟨now, wt⟩ := by
  induction titles with
  | nil => intro acc q h hobs; simp [observedIn] at hobs
  | cons wt rest ih =>
    intro acc q h hobs
    rw [List.foldl_cons]
    by_cases hw : isTrackedTitle wt
    · by_cases hq : extract_project_name wt = q
      · have ha : lookupA (extract_project_name wt) acc.1.session_active = none := by
          rw [hq]; exact h
        have hstep := openStep_eq_tracked_free now acc wt hw ha
        have hlook : lookupA q (openStep now acc wt).1.session_active = some ⟨now, wt⟩ := by
          rw [hstep, open_eq_of_none wt now acc.1 ha]
          show lookupA q (acc.1.session_active ++ [(extract_project_name wt, ⟨now, wt⟩)]) = _
          rw [lookupA_append_none _ h]
          simp [lookupA, hq]
        exact ⟨wt, hw, hq, openFold_lookup_some now rest _ q _ hlook⟩
      · have hnone : lookupA q (openStep now acc wt).1.session_active = none := by
          cases ha : lookupA (extract_project_name wt) acc.1.session_active with
          | some v => rw [openStep_eq_tracked_busy now acc wt v hw ha]; exact h
          | none =>
            rw [openStep_eq_tracked_free now acc wt hw ha, open_eq_of_none wt now acc.1 ha]
            show lookupA q (acc.1.session_active ++ [(extract_project_name wt, ⟨now, wt⟩)]) = _
            rw [lookupA_append_none _ h]
            simp [lookupA, hq]
        have hobs' : observedIn q rest = true := by
          rw [observedIn_cons, Bool.or_eq_true] at hobs
          rcases hobs with hx | hx
          · rw [Bool.and_eq_true, beq_iff_eq] at hx
            exact absurd hx.2 hq
          · exact hx
        exact ih _ q hnone hobs'
    · rw [openStep_eq_untracked now acc wt (by simpa using hw)]
      apply ih _ q h
      rw [observedIn_cons, Bool.or_eq_true] at hobs
      rcases hobs with hx | hx
      · rw [Bool.and_eq_true] at hx
        exact absurd hx.1 hw
      · exact hx

theorem openFold_stays_none (now : Nat) (titles : List String) :
    ∀ (acc : TState × List String) (q : String),
      lookupA q acc.1.session_active = none → observedIn q titles = false →
      lookupA q (titles.foldl (openStep now) acc).1.session_active = none := by
  induction titles with
  | nil => intro acc q h _; exact h
  | cons wt rest ih =>
    intro acc q h hobs
    rw [observedIn_cons, Bool.or_eq_false_iff] at hobs
    rw [List.foldl_cons]
    apply ih _ q ?_ hobs.2
    by_cases hw : isTrackedTitle wt
    · have hq : extract_project_name wt ≠ q := by
        have := hobs.1
        rw [Bool.and_eq_false_iff] at this
        rcases this with hx | hx
        · rw [hw] at hx; exact Bool.noConfusion hx
        · intro he
          rw [he] at hx
          simp at hx
      cases ha : lookupA (extract_project_name wt) acc.1.session_active with
      | some v => rw [openStep_eq_tracked_busy now acc wt v hw ha]; exact h
      | none =>
        rw [openStep_eq_tracked_free now acc wt hw ha, open_eq_of_none wt now acc.1 ha]
        show lookupA q (acc.1.session_active ++ [(extract_project_name wt, ⟨now, wt⟩)]) = _
        rw [lookupA_append_none _ h]
        simp [lookupA, hq]
    · rw [openStep_eq_untracked now acc wt (by simpa using hw)]
      exact h

/-! ## `pollOnce` characterizations -/

theorem pollOnce_eq (titles : List String) (now : Nat) (st : TState) :
    pollOnce titles now st =
      closeMany
        (keysOf ((titles.foldl (openStep now) (st, ([] : List String))).1.session_active.filter
          fun pi => !(titles.foldl (openStep now) (st, ([] : List String))).2.contains pi.1))
        now (titles.foldl (openStep now) (st, ([] : List String))).1 := rfl

theorem notMem_closed_of_tracked {acc : TState × List String} {p : String}
    (htr : p ∈ acc.2) :
    p ∉ keysOf (acc.1.session_active.filter fun pi => !acc.2.contains pi.1) := by
  intro hmem
  obtain ⟨pi, hpi, hfst⟩ := List.mem_map.mp hmem
  have h2 := (List.mem_filter.mp hpi).2
  rw [hfst] at h2
  rw [(containsStr_iff _ _).mpr htr] at h2
  exact Bool.noConfusion h2

theorem mem_closed_of_untracked {acc : TState × List String} {p : String} {i : ActiveInfo}
    (h : lookupA p acc.1.session_active = some i) (htr : p ∉ acc.2) :
    p ∈ keysOf (acc.1.session_active.filter fun pi => !acc.2.contains pi.1) := by
  apply List.mem_map.mpr
  refine ⟨(p, i), List.mem_filter.mpr ⟨lookupA_mem h, ?_⟩, rfl⟩
  have hc : acc.2.contains p = false := by
    cases hc : acc.2.contains p
    · rfl
    · exact absurd ((containsStr_iff _ _).mp hc) htr
  show (!acc.2.contains p) = true
  rw [hc]
  rfl

theorem pollOnce_WF (titles : List String) (now : Nat) (st : TState) (hwf : WF st) :
    WF (pollOnce titles now st) := by
  rw [pollOnce_eq]
  exact (closeMany_spec _ now _ (openFold_WF now titles (st, []) hwf)).1

/-- A project observed this cycle keeps its active entry (same start, same
title), its session history, and its log file. -/
theorem pollOnce_observed_active (titles : List String) (now : Nat) (st : TState)
    (p : String) (i : ActiveInfo) (hwf : WF st)
    (h : lookupA p st.session_active = some i) (hobs : observedIn p titles = true) :
    lookupA p (pollOnce titles now st).session_active = some i ∧
    getSessions (pollOnce titles now st) p = getSessions st p ∧
    lookupA (p ++ "_log.csv") (pollOnce titles now st).files =
      lookupA (p ++ "_log.csv") st.files := by
  rw [pollOnce_eq]
  have hw1 := openFold_WF now titles (st, []) hwf
  have hl1 := openFold_lookup_some now titles (st, []) p i h
  have htr : p ∈ (titles.foldl (openStep now) (st, ([] : List String))).2 :=
    (openFold_tracked now titles (st, []) p).mpr (Or.inr hobs)
  obtain ⟨fa, _, fc⟩ := openFold_frame now titles (st, [])
  obtain ⟨W, P, N, M⟩ := closeMany_spec _ now _ hw1
  obtain ⟨a, b, c⟩ := P p (notMem_closed_of_tracked htr)
  refine ⟨a.trans hl1, ?_, ?_⟩
  · rw [b]
    unfold getSessions
    rw [fa]
  · rw [c, fc]

/-- A project with an active session that is not observed this cycle is
closed: active entry gone, exactly one session appended (ending at `now`,
duration `now - start`), and its log file rewritten to the new history. -/
theorem pollOnce_close (titles : List String) (now : Nat) (st : TState)
    (p : String) (i : ActiveInfo) (hwf : WF st)
    (h : lookupA p st.session_active = some i) (hobs : observedIn p titles = false) :
    lookupA p (pollOnce titles now st).session_active = none ∧
    getSessions (pollOnce titles now st) p = getSessions st p ++ [mkClose i now] ∧
    ∃ c, lookupA (p ++ "_log.csv") (pollOnce titles now st).files =
      some (saveLines c (fmtTime now) (getSessions (pollOnce titles now st) p)) := by
  rw [pollOnce_eq]
  have hw1 := openFold_WF now titles (st, []) hwf
  have hl1 := openFold_lookup_some now titles (st, []) p i h
  have htr : p ∉ (titles.foldl (openStep now) (st, ([] : List String))).2 := by
    intro hm
    rcases (openFold_tracked now titles (st, []) p).mp hm with hx | hx
    · simp at hx
    · rw [hobs] at hx
      exact Bool.noConfusion hx
  obtain ⟨fa, _, _⟩ := openFold_frame now titles (st, [])
  obtain ⟨W, P, N, M⟩ := closeMany_spec _ now _ hw1
  obtain ⟨a, b, c⟩ := M p i (mem_closed_of_untracked hl1 htr) hl1
  refine ⟨a, ?_, c⟩
  rw [b]
  unfold getSessions
  rw [fa]

/-- A project with no active session and no observation this cycle is
completely untouched. -/
theorem pollOnce_inactive_unobserved (titles : List String) (now : Nat) (st : TState)
    (p : String) (hwf : WF st)
    (h : lookupA p st.session_active = none) (hobs : observedIn p titles = false) :
    lookupA p (pollOnce titles now st).session_active = none ∧
    getSessions (pollOnce titles now st) p = getSessions st p ∧
    lookupA (p ++ "_log.csv") (pollOnce titles now st).files =
      lookupA (p ++ "_log.csv") st.files := by
  rw [pollOnce_eq]
  have hw1 := openFold_WF now titles (st, []) hwf
  have h1 := openFold_stays_none now titles (st, []) p h hobs
  obtain ⟨fa, _, fc⟩ := openFold_frame now titles (st, [])
  obtain ⟨W, P, N, M⟩ := closeMany_spec _ now _ hw1
  obtain ⟨a, b, c⟩ := N p h1
  refine ⟨a, ?_, by rw [c, fc]⟩
  rw [b]
  unfold getSessions
  rw [fa]

/-- A project observed this cycle with no active session gets a fresh
active entry starting at `now`, recording one of the observed titles that
classifies to it; its session history is unchanged. -/
theorem pollOnce_open (titles : List String) (now : Nat) (st : TState) (p : String)
    (hwf : WF st) (h : lookupA p st.session_active = none)
    (hobs : observedIn p titles = true) :
    ∃ wt, isTrackedTitle wt = true ∧ extract_project_name wt = p ∧
      lookupA p (pollOnce titles now st).session_active = some ⟨now, wt⟩ ∧
      getSessions (pollOnce titles now st) p = getSessions st p := by
  rw [pollOnce_eq]
  have hw1 := openFold_WF now titles (st, []) hwf
  obtain ⟨wt, h1, h2, h3⟩ := openFold_opens now titles (st, []) p h hobs
  have htr : p ∈ (titles.foldl (openStep now) (st, ([] : List String))).2 :=
    (openFold_tracked now titles (st, []) p).mpr (Or.inr hobs)
  obtain ⟨fa, _, _⟩ := openFold_frame now titles (st, [])
  obtain ⟨W, P, N, M⟩ := closeMany_spec _ now _ hw1
  obtain ⟨a, b, c⟩ := P p (notMem_closed_of_tracked htr)
  refine ⟨wt, h1, h2, a.trans h3, ?_⟩
  rw [b]
  unfold getSessions
  rw [fa]

/-! ## Shutdown, operation sequences -/

theorem shutdownAll_spec (now : Nat) (st : TState) (hwf : WF st) :
    (shutdownAll now st).session_active = [] ∧
    ∀ p i, lookupA p st.session_active = some i →
      getSessions (shutdownAll now st) p = getSessions st p ++ [mkClose i now] ∧
      ∃ c, lookupA (p ++ "_log.csv") (shutdownAll now st).files =
        some (saveLines c (fmtTime now) (getSessions (shutdownAll now st) p)) := by
  obtain ⟨W, P, N, M⟩ := closeMany_spec (keysOf st.session_active) now st hwf
  constructor
  · apply lookupA_all_none_nil
    intro k
    cases hk : lookupA k st.session_active with
    | none => exact (N k hk).1
    | some j => exact (M k j (mem_keysOf_of_lookupA hk) hk).1
  · intro p i h
    obtain ⟨a, b, c⟩ := M p i (mem_keysOf_of_lookupA h) h
    exact ⟨b, c⟩

theorem applyOp_WF (st : TState) (op : TOp) (hwf : WF st) : WF (applyOp st op) := by
  cases op with
  | poll titles now => exact pollOnce_WF titles now st hwf
  | shut now => exact (closeMany_spec (keysOf st.session_active) now st hwf).1

theorem initState_WF : WF initState :=
  ⟨List.nodup_nil, fun pi hpi => absurd hpi (List.not_mem_nil pi)⟩

theorem runOps_WF (ops : List TOp) : WF (runOps ops) := by
  suffices h : ∀ st, WF st → WF (ops.foldl applyOp st) from h initState initState_WF
  induction ops with
  | nil => intro st h; exact h
  | cons op rest ih =>
    intro st h
    rw [List.foldl_cons]
    exact ih _ (applyOp_WF st op h)

/-- Across a run of poll cycles that all observe `p`, the active entry of
`p` and its session history are untouched. -/
theorem pollsSeq_preserve (mids : List (List String × Nat)) (p : String) (i : ActiveInfo) :
    ∀ st : TState, WF st → lookupA p st.session_active = some i →
      (∀ c ∈ mids, observedIn p c.1 = true) →
      WF (mids.foldl (fun s c => pollOnce c.1 c.2 s) st) ∧
      lookupA p (mids.foldl (fun s c => pollOnce c.1 c.2 s) st).session_active = some i ∧
      getSessions (mids.foldl (fun s c => pollOnce c.1 c.2 s) st) p = getSessions st p := by
  induction mids with
  | nil => intro st hwf h _; exact ⟨hwf, h, rfl⟩
  | cons cyc rest ih =>
    intro st hwf h hall
    rw [List.foldl_cons]
    obtain ⟨a, b, _⟩ :=
      pollOnce_observed_active cyc.1 cyc.2 st p i hwf h (hall cyc (List.mem_cons_self _ _))
    obtain ⟨W, L, S⟩ := ih (pollOnce cyc.1 cyc.2 st) (pollOnce_WF cyc.1 cyc.2 st hwf) a
      (fun c hc => hall c (List.mem_cons_of_mem _ hc))
    exact ⟨W, L, S.trans b⟩

/-! ## Claim theorems: the session state machine -/

/-- **C2**: if a project `p` has no active session, is observed (via a
tracked application's window) in a first poll at time `t1` and in every
intermediate poll, and is absent from the poll at time `tL`, then exactly
one session is emitted for `p`: its history is extended by a single
record with start `t1`, end `tL`, and duration `tL - t1` (integer
seconds), and `p` has no active session afterwards. -/
theorem c2_no_lost_close (st0 : TState) (p : String)
    (obs1 : List String) (t1 : Nat) (mids : List (List String × Nat))
    (obsL : List String) (tL : Nat)
    (hwf : WF st0) (h0 : lookupA p st0.session_active = none)
    (h1 : observedIn p obs1 = true)
    (hm : ∀ c ∈ mids, observedIn p c.1 = true)
    (hL : observedIn p obsL = false) :
    ∃ wt, isTrackedTitle wt = true ∧ extract_project_name wt = p ∧
      getSessions
          (pollOnce obsL tL
            (mids.foldl (fun s c => pollOnce c.1 c.2 s) (pollOnce obs1 t1 st0))) p =
        getSessions st0 p ++ [⟨fmtTime t1, fmtTime tL, (tL : Int) - (t1 : Int), wt⟩] ∧
      lookupA p
          (pollOnce obsL tL
            (mids.foldl (fun s c => pollOnce c.1 c.2 s) (pollOnce obs1 t1 st0))).session_active =
        none := by
  obtain ⟨wt, hw, hp, ha, hs⟩ := pollOnce_open obs1 t1 st0 p hwf h0 h1
  have hwf1 := pollOnce_WF obs1 t1 st0 hwf
  obtain ⟨W2, L2, S2⟩ := pollsSeq_preserve mids p ⟨t1, wt⟩ (pollOnce obs1 t1 st0) hwf1 ha hm
  obtain ⟨a, b, _⟩ := pollOnce_close obsL tL _ p ⟨t1, wt⟩ W2 L2 hL
  refine ⟨wt, hw, hp, ?_, a⟩
  rw [b, S2, hs]
  rfl

/-- C2 witness: the spec scenario — `"ProjA - Blender"` observed at
t = 0, 20, 40 s, nothing at t = 60 s, yields exactly the one session
`(1970-01-01 00:00:00, 1970-01-01 00:01:00, 60 s)` and no active session. -/
theorem c2_no_lost_close_witness :
    ∃ wt, isTrackedTitle wt = true ∧ extract_project_name wt = "ProjA" ∧
      getSessions
          (pollOnce [] 60
            ([(["ProjA - Blender"], 20), (["ProjA - Blender"], 40)].foldl
              (fun s c => pollOnce c.1 c.2 s) (pollOnce ["ProjA - Blender"] 0 initState)))
          "ProjA" =
        getSessions initState "ProjA" ++
          [⟨fmtTime 0, fmtTime 60, (60 : Int) - (0 : Int), wt⟩] ∧
      lookupA "ProjA"
          (pollOnce [] 60
            ([(["ProjA - Blender"], 20), (["ProjA - Blender"], 40)].foldl
              (fun s c => pollOnce c.1 c.2 s)
              (pollOnce ["ProjA - Blender"] 0 initState))).session_active = none :=
  c2_no_lost_close initState "ProjA" ["ProjA - Blender"] 0
    [(["ProjA - Blender"], 20), (["ProjA - Blender"], 40)] [] 60
    initState_WF (by decide) (by decide) (by decide) (by decide)

/-- **C7 counterexample**: with one active session and a failing window
enumeration at t = 60, the cycle result is the propagated exception —
not the "treat as empty observation set and continue" state the claim
describes (only `KeyboardInterrupt` is caught in `run`). -/
theorem c7_enum_failure_counterexample :
    pollCycleE (Except.error ()) 60 ⟨[("ProjA", ⟨0, "ProjA - Blender"⟩)], [], [], []⟩ =
      Except.error () ∧
    pollCycleE (Except.error ()) 60 ⟨[("ProjA", ⟨0, "ProjA - Blender"⟩)], [], [], []⟩ ≠
      Except.ok (pollOnce [] 60 ⟨[("ProjA", ⟨0, "ProjA - Blender"⟩)], [], [], []⟩) :=
  ⟨rfl, fun h => Except.noConfusion h⟩

/-- **C7 (amended)**: if window enumeration raises during a poll cycle,
the exception propagates out of `run`'s `try` (which catches only
`KeyboardInterrupt`): the cycle produces no successor state — active
sessions are not closed and the polling loop terminates. -/
theorem c7_enum_failure_propagates (st : TState) (now : Nat) :
    pollCycleE (Except.error ()) now st = Except.error () := rfl

/-- **C8**: the interrupt handler closes every remaining active session
at the current time and persists each one: afterwards no active session
remains, each previously active project's history gained exactly the
closing record, and its log file was rewritten to match that history. -/
theorem c8_shutdown_flushes (st : TState) (now : Nat) (hwf : WF st) :
    (shutdownAll now st).session_active = [] ∧
    ∀ p i, lookupA p st.session_active = some i →
      getSessions (shutdownAll now st) p = getSessions st p ++ [mkClose i now] ∧
      ∃ c, lookupA (p ++ "_log.csv") (shutdownAll now st).files =
        some (saveLines c (fmtTime now) (getSessions (shutdownAll now st) p)) :=
  shutdownAll_spec now st hwf

/-- C8 witness: shutting down at t = 60 with one active session (ProjA,
started at t = 0) leaves no active session, appends its closing record,
and persists the file. -/
theorem c8_shutdown_flushes_witness :
    (shutdownAll 60 ⟨[("ProjA", ⟨0, "ProjA - Blender"⟩)], [], [], []⟩).session_active = [] ∧
    getSessions (shutdownAll 60 ⟨[("ProjA", ⟨0, "ProjA - Blender"⟩)], [], [], []⟩) "ProjA" =
      [mkClose ⟨0, "ProjA - Blender"⟩ 60] ∧
    ∃ c, lookupA ("ProjA" ++ "_log.csv")
        (shutdownAll 60 ⟨[("ProjA", ⟨0, "ProjA - Blender"⟩)], [], [], []⟩).files =
      some (saveLines c (fmtTime 60)
        (getSessions (shutdownAll 60 ⟨[("ProjA", ⟨0, "ProjA - Blender"⟩)], [], [], []⟩) "ProjA")) := by
  obtain ⟨h1, h2⟩ :=
    c8_shutdown_flushes ⟨[("ProjA", ⟨0, "ProjA - Blender"⟩)], [], [], []⟩ 60
      ⟨by decide, by decide⟩
  obtain ⟨a, b⟩ := h2 "ProjA" ⟨0, "ProjA - Blender"⟩ (by decide)
  exact ⟨h1, a, b⟩

/-- **C9**: in any sequence of poll and shutdown operations from startup,
the active-session map never holds two entries for one project (its keys
are duplicate-free), and a project that already has an active session and
is observed again keeps exactly its recorded start time and window title
— only disappearance then reappearance can produce a fresh entry. -/
theorem c9_unique_active_no_reset :
    (∀ ops : List TOp, (keysOf (runOps ops).session_active).Nodup) ∧
    (∀ (titles : List String) (now : Nat) (st : TState) (p : String) (i : ActiveInfo),
      WF st → lookupA p st.session_active = some i → observedIn p titles = true →
      lookupA p (pollOnce titles now st).session_active = some i) := by
  constructor
  · intro ops
    exact (runOps_WF ops).1
  · intro titles now st p i hwf h hobs
    exact (pollOnce_observed_active titles now st p i hwf h hobs).1

/-- C9 witness: after one poll the key list is duplicate-free, and
re-observing ProjA at t = 20 keeps its t = 0 start and original title. -/
theorem c9_unique_active_no_reset_witness :
    (keysOf (runOps [TOp.poll ["ProjA - Blender"] 0]).session_active).Nodup ∧
    lookupA "ProjA"
        (pollOnce ["ProjA - Blender"] 20
          ⟨[("ProjA", ⟨0, "ProjA - Blender"⟩)], [], [], []⟩).session_active =
      some ⟨0, "ProjA - Blender"⟩ :=
  ⟨c9_unique_active_no_reset.1 [TOp.poll ["ProjA - Blender"] 0],
   c9_unique_active_no_reset.2 ["ProjA - Blender"] 20
     ⟨[("ProjA", ⟨0, "ProjA - Blender"⟩)], [], [], []⟩ "ProjA" ⟨0, "ProjA - Blender"⟩
     ⟨by decide, by decide⟩ (by decide) (by decide)⟩

/-- **C10**: calling `on_window_close` on a title whose classified
project has no active session is a complete no-op — the entire tracker
state (active map, in-memory histories, metadata, files) is unchanged and
no session is emitted. -/
theorem c10_close_without_active_noop (st : TState) (wt : String) (now : Nat)
    (h : lookupA (extract_project_name wt) st.session_active = none) :
    on_window_close wt now st = st :=
  close_none_eq wt now st h

/-- C10 witness: closing an unrelated title leaves the state untouched. -/
theorem c10_close_without_active_noop_witness :
    on_window_close "Other - Blender" 99 ⟨[("ProjA", ⟨0, "ProjA - Blender"⟩)], [], [], []⟩ =
      ⟨[("ProjA", ⟨0, "ProjA - Blender"⟩)], [], [], []⟩ :=
  c10_close_without_active_noop ⟨[("ProjA", ⟨0, "ProjA - Blender"⟩)], [], [], []⟩
    "Other - Blender" 99 (by decide)

/-! ## Claim theorems: TitleClassifier -/

theorem processedName_all_legal (title : String) :
    (processedName title).all (fun c => !isIllegalFileChar c) = true := by
  simp only [processedName, List.all_map]
  apply List.all_eq_true.mpr
  intro c _
  by_cases hi : isIllegalFileChar c
  · simp [Function.comp, hi]
    decide
  · simp [Function.comp, hi]

/-- **C6**: the classifier's result never contains a character from
`< > : " / \ | ? *` — the sanitizing substitution runs on every path and
the sentinel itself is clean; in particular the result for
`"Bad:Name/Here - App"` is clean. -/
theorem c6_sanitized_output :
    (∀ title : String,
      (extract_project_name title).data.all (fun c => !isIllegalFileChar c) = true) ∧
    (extract_project_name "Bad:Name/Here - App").data.all
      (fun c => !isIllegalFileChar c) = true := by
  have hall : ∀ title : String,
      (extract_project_name title).data.all (fun c => !isIllegalFileChar c) = true := by
    intro title
    simp only [extract_project_name]
    by_cases h : (processedName title).length < 2
    · rw [if_pos h]
      decide
    · rw [if_neg h]
      exact processedName_all_legal title
  exact ⟨hall, hall _⟩

/-- **C4 counterexample**: the claim's instance is false —
`classify_project("- App")` returns `"- App"`, not `"Unnamed_Project"`.
The regex `^(.+?)\s*[-–—]\s*` requires at least one character before the
separator, so for a title starting with the dash no split occurs, the
whole 5-character title is kept, and `lstrip('* ')` does not remove the
leading dash. -/
theorem c4_short_name_counterexample :
    extract_project_name "- App" = "- App" ∧
    extract_project_name "- App" ≠ "Unnamed_Project" := by
  constructor
  · decide
  · decide

/-- **C4 (amended)**: whenever the candidate name left after separator
split, stripping, and sanitization has fewer than 2 characters,
`extract_project_name` returns the sentinel `"Unnamed_Project"`; but
`classify_project("- App")` is `"- App"` (no split happens because the
regex needs a character before the dash, and the 5-character remainder
passes the length check). -/
theorem c4_short_name_sentinel :
    (∀ title : String, (processedName title).length < 2 →
      extract_project_name title = "Unnamed_Project") ∧
    extract_project_name "- App" = "- App" := by
  constructor
  · intro title h
    simp only [extract_project_name]
    rw [if_pos h]
  · decide

/-- C4 witness: `"a - App"` processes to the single character `"a"`, so
the sentinel is returned. -/
theorem c4_short_name_sentinel_witness :
    (processedName "a - App").length < 2 ∧
    extract_project_name "a - App" = "Unnamed_Project" ∧
    extract_project_name "- App" = "- App" :=
  ⟨by decide, c4_short_name_sentinel.1 "a - App" (by decide), c4_short_name_sentinel.2⟩

/-- **C5**: the classifier splits on the first dash-family separator with
optional surrounding whitespace and keeps the text before it, stripping
leading `*`/spaces — so the spec's two titles coincide on `"My House"`;
with several separators the first wins; with no separator the first 50
characters are kept. -/
theorem c5_stable_classification :
    extract_project_name "My House - Blender 4.5" = "My House" ∧
    extract_project_name "* My House - Blender" = "My House" ∧
    extract_project_name "Alpha - B - C" = "Alpha" ∧
    extract_project_name (String.mk (List.replicate 60 'a')) =
      String.mk (List.replicate 50 'a') := by
  refine ⟨by decide, by decide, by decide, by decide⟩

/-! ## Round trip of Python `str`/`int` on durations -/

theorem digitVal_decDigit {n : Nat} (h : n < 10) : digitVal (decDigit n) = n := by
  interval_cases n <;> decide

theorem isDecDigit_decDigit {n : Nat} (h : n < 10) : isDecDigit (decDigit n) = true := by
  interval_cases n <;> decide

theorem natDigitsAux_spec : ∀ fuel n : Nat, n < 10 ^ (fuel + 1) →
    (natDigitsAux (fuel + 1) n).all isDecDigit = true ∧
    natDigitsAux (fuel + 1) n ≠ [] ∧
    ∀ a : Nat, (natDigitsAux (fuel + 1) n).foldl (fun a c => a * 10 + digitVal c) a =
      a * 10 ^ (natDigitsAux (fuel + 1) n).length + n := by
  intro fuel
  induction fuel with
  | zero =>
    intro n h
    have h10 : n < 10 := by simpa using h
    refine ⟨?_, ?_, ?_⟩
    · simp [natDigitsAux, h10, isDecDigit_decDigit h10]
    · simp [natDigitsAux, h10]
    · intro a
      simp [natDigitsAux, h10, digitVal_decDigit h10]
  | succ fuel ih =>
    intro n h
    by_cases h10 : n < 10
    · refine ⟨?_, ?_, ?_⟩
      · simp [natDigitsAux, h10, isDecDigit_decDigit h10]
      · simp [natDigitsAux, h10]
      · intro a
        simp [natDigitsAux, h10, digitVal_decDigit h10]
    · have hdiv : n / 10 < 10 ^ (fuel + 1) := by
        rw [Nat.div_lt_iff_lt_mul (by norm_num)]
        calc n < 10 ^ (fuel + 1 + 1) := h
        _ = 10 ^ (fuel + 1) * 10 := by rw [pow_succ]
      obtain ⟨ihall, ihne, ihfold⟩ := ih (n / 10) hdiv
      have hmod : n % 10 < 10 := Nat.mod_lt n (by norm_num)
      have heq : natDigitsAux (fuel + 1 + 1) n =
          natDigitsAux (fuel + 1) (n / 10) ++ [decDigit (n % 10)] := by
        simp [natDigitsAux, h10]
      refine ⟨?_, ?_, ?_⟩
      · rw [heq, List.all_append]
        simp [ihall, isDecDigit_decDigit hmod]
      · rw [heq]
        simp
      · intro a
        rw [heq, List.foldl_append, ihfold a]
        simp only [List.foldl_cons, List.foldl_nil, List.length_append, List.length_cons,
          List.length_nil]
        rw [digitVal_decDigit hmod]
        have hdm : n / 10 * 10 + n % 10 = n := by omega
        calc (a * 10 ^ (natDigitsAux (fuel + 1) (n / 10)).length + n / 10) * 10 + n % 10
            = a * (10 ^ (natDigitsAux (fuel + 1) (n / 10)).length * 10) +
                (n / 10 * 10 + n % 10) := by ring
        _ = a * 10 ^ ((natDigitsAux (fuel + 1) (n / 10)).length + (0 + 1)) + n := by
            rw [hdm, pow_succ]

theorem natDigits_spec (n : Nat) :
    (natDigits n).all isDecDigit = true ∧ natDigits n ≠ [] ∧
    digitsToNat (natDigits n) = some n := by
  have hlt : n < 10 ^ (n + 1) :=
    lt_of_lt_of_le (Nat.lt_two_pow n)
      (le_trans (Nat.pow_le_pow_left (by norm_num) n)
        (Nat.pow_le_pow_right (by norm_num) (Nat.le_succ n)))
  obtain ⟨hall, hne, hfold⟩ := natDigitsAux_spec n n hlt
  refine ⟨hall, hne, ?_⟩
  unfold digitsToNat natDigits
  rw [if_pos ⟨hne, hall⟩, hfold 0]
  simp

theorem notPyWs_of_isDecDigit {c : Char} (h : isDecDigit c = true) : isPyWs c = false := by
  by_contra hc
  rw [Bool.not_eq_false] at hc
  simp only [isPyWs, Bool.or_eq_true, decide_eq_true_eq] at hc
  rcases hc with ((((h1 | h1) | h1) | h1) | h1) | h1 <;>
    (subst h1; exact absurd h (by decide))

theorem dropWhile_eq_self_of_all {p : Char → Bool} {cs : List Char}
    (h : ∀ c ∈ cs, p c = false) : cs.dropWhile p = cs := by
  cases cs with
  | nil => rfl
  | cons c r => simp [List.dropWhile_cons, h c (List.mem_cons_self c r)]

theorem pyStripCs_eq_self_of_all {cs : List Char} (h : ∀ c ∈ cs, isPyWs c = false) :
    pyStripCs cs = cs := by
  unfold pyStripCs dropTrail
  rw [dropWhile_eq_self_of_all h, dropWhile_eq_self_of_all ?_, List.reverse_reverse]
  intro c hc
  exact h c (List.mem_reverse.mp hc)

theorem pyIntS_intToStrS (i : Int) : pyIntS (intToStrS i) = some i := by
  obtain ⟨hall, hne, hval⟩ := natDigits_spec i.natAbs
  have hnws : ∀ c ∈ natDigits i.natAbs, isPyWs c = false := fun c hc =>
    notPyWs_of_isDecDigit (List.all_eq_true.mp hall c hc)
  by_cases hi : i < 0
  · show pyIntCs (intToStrS i).data = some i
    unfold intToStrS
    rw [if_pos hi]
    show pyIntCs ('-' :: natDigits i.natAbs) = some i
    unfold pyIntCs
    have hstrip : pyStripCs ('-' :: natDigits i.natAbs) = '-' :: natDigits i.natAbs := by
      apply pyStripCs_eq_self_of_all
      intro c hc
      rcases List.mem_cons.mp hc with h1 | h1
      · subst h1; decide
      · exact hnws c h1
    rw [hstrip]
    show (if ('-' : Char) = '+' then Option.map Int.ofNat (digitsToNat (natDigits i.natAbs))
      else if ('-' : Char) = '-' then
        Option.map (fun n => -(n : Int)) (digitsToNat (natDigits i.natAbs))
      else Option.map Int.ofNat (digitsToNat ('-' :: natDigits i.natAbs))) = some i
    rw [if_neg (by decide : ¬('-' : Char) = '+'), if_pos rfl, hval]
    show some (-(i.natAbs : Int)) = some i
    have hv : -(i.natAbs : Int) = i := by omega
    rw [hv]
  · show pyIntCs (intToStrS i).data = some i
    unfold intToStrS
    rw [if_neg hi]
    show pyIntCs (natDigits i.natAbs) = some i
    obtain ⟨c, ds, hD⟩ : ∃ c ds, natDigits i.natAbs = c :: ds := by
      cases hD : natDigits i.natAbs with
      | nil => exact absurd hD hne
      | cons c ds => exact ⟨c, ds, rfl⟩
    have hcd : isDecDigit c = true := by
      apply List.all_eq_true.mp hall
      rw [hD]
      exact List.mem_cons_self c ds
    have hc1 : ¬c = '+' := by
      intro he
      subst he
      exact absurd hcd (by decide)
    have hc2 : ¬c = '-' := by
      intro he
      subst he
      exact absurd hcd (by decide)
    have hstrip : pyStripCs (natDigits i.natAbs) = natDigits i.natAbs :=
      pyStripCs_eq_self_of_all hnws
    unfold pyIntCs
    rw [hstrip, hD]
    show (if c = '+' then Option.map Int.ofNat (digitsToNat ds)
      else if c = '-' then Option.map (fun n => -(n : Int)) (digitsToNat ds)
      else Option.map Int.ofNat (digitsToNat (c :: ds))) = some i
    rw [if_neg hc1, if_neg hc2, ← hD, hval]
    show some ((i.natAbs : Int)) = some i
    have hv : (i.natAbs : Int) = i := by omega
    rw [hv]

/-! ## CSV round trip -/

theorem csvSplit_unquoted_pass (f : List Char) :
    ∀ acc rest : List Char, (∀ c ∈ f, ¬c = ',' ∧ ¬c = '"') →
    csvSplit .plain acc (f ++ rest) = csvSplit .plain (f.reverse ++ acc) rest := by
  induction f with
  | nil => intro acc rest _; simp
  | cons c f' ih =>
    intro acc rest h
    obtain ⟨hc1, hc2⟩ := h c (List.mem_cons_self c f')
    show csvSplit .plain acc (c :: (f' ++ rest)) = _
    simp only [csvSplit]
    rw [if_neg hc1, if_neg hc2, ih (c :: acc) rest (fun x hx => h x (List.mem_cons_of_mem _ hx))]
    simp [List.reverse_cons, List.append_assoc]

theorem csvSplit_postq_exit (rest acc : List Char) (hrest : ∀ r2, rest ≠ '"' :: r2) :
    csvSplit .postq acc rest = csvSplit .plain acc rest := by
  cases rest with
  | nil => rfl
  | cons c2 r2 =>
    have hne : ¬c2 = '"' := fun he => hrest r2 (by rw [he])
    simp only [csvSplit]
    rw [if_neg hne]
    by_cases hc : c2 = ','
    · rw [if_pos hc, if_pos hc]
    · rw [if_neg hc, if_neg hc, if_neg hne]

theorem csvSplit_quoted_pass (f : List Char) :
    ∀ acc rest : List Char, (∀ r2, rest ≠ '"' :: r2) →
    csvSplit .quoted acc (escQuotes f ++ '"' :: rest) =
      csvSplit .plain (f.reverse ++ acc) rest := by
  induction f with
  | nil =>
    intro acc rest hrest
    show csvSplit .quoted acc ('"' :: rest) = csvSplit .plain acc rest
    simp only [csvSplit]
    rw [if_pos trivial]
    exact csvSplit_postq_exit rest acc hrest
  | cons c f' ih =>
    intro acc rest hrest
    by_cases hc : c = '"'
    · subst hc
      rw [show escQuotes ('"' :: f') ++ '"' :: rest =
        '"' :: ('"' :: (escQuotes f' ++ '"' :: rest)) from by simp [escQuotes]]
      simp only [csvSplit]
      rw [if_pos trivial, if_pos trivial, ih ('"' :: acc) rest hrest]
      simp [List.reverse_cons, List.append_assoc]
    · rw [show escQuotes (c :: f') ++ '"' :: rest =
        c :: (escQuotes f' ++ '"' :: rest) from by simp [escQuotes, hc]]
      simp only [csvSplit]
      rw [if_neg hc, ih (c :: acc) rest hrest]
      simp [List.reverse_cons, List.append_assoc]

theorem csvSplit_field (f : String) (rest : List Char) (hrest : ∀ r2, rest ≠ '"' :: r2) :
    csvSplit .plain [] (encodeField f ++ rest) = csvSplit .plain f.data.reverse rest := by
  by_cases hq : f.data.any needsQuote
  · rw [encodeField, if_pos hq,
      show ('"' :: escQuotes f.data ++ ['"']) ++ rest =
        '"' :: (escQuotes f.data ++ '"' :: rest) from by simp]
    show csvSplit .quoted [] (escQuotes f.data ++ '"' :: rest) = _
    rw [csvSplit_quoted_pass f.data [] rest hrest]
    simp
  · rw [encodeField, if_neg hq]
    have hall : ∀ c ∈ f.data, ¬c = ',' ∧ ¬c = '"' := by
      intro c hc
      have hnq : ¬needsQuote c = true := by
        rw [Bool.not_eq_true, List.any_eq_false] at hq
        exact hq c hc
      constructor <;> intro he <;> (subst he; exact hnq (by decide))
    rw [csvSplit_unquoted_pass f.data [] rest hall]
    simp

theorem decodeRow_encodeRow : ∀ fields : List String, fields ≠ [] →
    decodeRow (encodeRow fields) = fields := by
  intro fields
  induction fields with
  | nil => intro h; exact absurd rfl h
  | cons f rest ih =>
    intro _
    cases rest with
    | nil =>
      show csvSplit .plain [] (encodeRowCs [f]) = [f]
      rw [show encodeRowCs [f] = encodeField f from rfl]
      have h0 := csvSplit_field f [] fun r2 h => List.noConfusion h
      rw [List.append_nil] at h0
      rw [h0]
      show [String.mk f.data.reverse.reverse] = [f]
      rw [List.reverse_reverse]
    | cons g rest2 =>
      show csvSplit .plain [] (encodeRowCs (f :: g :: rest2)) = f :: g :: rest2
      rw [show encodeRowCs (f :: g :: rest2) =
        encodeField f ++ ',' :: encodeRowCs (g :: rest2) from rfl]
      rw [csvSplit_field f (',' :: encodeRowCs (g :: rest2))
        (fun r2 h => by injection h with h1 _; exact absurd h1 (by decide))]
      show String.mk f.data.reverse.reverse :: csvSplit .plain [] (encodeRowCs (g :: rest2)) =
        f :: g :: rest2
      rw [List.reverse_reverse]
      congr 1
      exact ih fun h => List.noConfusion h

/-! ## Log-file prefix and strip helpers -/

theorem strData_append (a b : String) : (a ++ b).data = a.data ++ b.data := by
  cases a
  cases b
  rfl

theorem prefixCs_of_prefix_left : ∀ p a : List Char, prefixCs p a = true →
    ∀ b, prefixCs p (a ++ b) = true := by
  intro p
  induction p with
  | nil => intro a _ b; rfl
  | cons c r ih =>
    intro a h b
    cases a with
    | nil => simp [prefixCs] at h
    | cons c2 a2 =>
      show prefixCs (c :: r) (c2 :: (a2 ++ b)) = true
      simp only [prefixCs, Bool.and_eq_true] at h ⊢
      exact ⟨h.1, ih a2 h.2 b⟩

theorem prefixCs_append_eq : ∀ p a : List Char, p.length ≤ a.length →
    ∀ b, prefixCs p (a ++ b) = prefixCs p a := by
  intro p
  induction p with
  | nil => intro a _ b; rfl
  | cons c r ih =>
    intro a h b
    cases a with
    | nil => simp at h
    | cons c2 a2 =>
      show prefixCs (c :: r) (c2 :: (a2 ++ b)) = prefixCs (c :: r) (c2 :: a2)
      simp only [prefixCs]
      rw [ih a2 (by simpa using h) b]

theorem startsWithS_append_left {p lit : String} (h : startsWithS p lit = true) (v : String) :
    startsWithS p (lit ++ v) = true := by
  unfold startsWithS at h ⊢
  rw [strData_append]
  exact prefixCs_of_prefix_left p.data lit.data h v.data

theorem startsWithS_append_of_le {p lit : String} (h : p.data.length ≤ lit.data.length)
    (v : String) : startsWithS p (lit ++ v) = startsWithS p lit := by
  unfold startsWithS
  rw [strData_append]
  exact prefixCs_append_eq p.data lit.data h v.data

theorem dropTrail_sublist (p : Char → Bool) (l : List Char) : (dropTrail p l).Sublist l := by
  unfold dropTrail
  have h1 : (l.reverse.dropWhile p).Sublist l.reverse := List.dropWhile_sublist _
  have h2 : (l.reverse.dropWhile p).reverse.Sublist l.reverse.reverse := h1.reverse
  rwa [List.reverse_reverse] at h2

theorem strip_self_parts {cs : List Char} (h : pyStripCs cs = cs) :
    cs.dropWhile isPyWs = cs ∧ dropTrail isPyWs cs = cs := by
  have hsub1 : (cs.dropWhile isPyWs).Sublist cs := List.dropWhile_sublist _
  have hsub2 : (dropTrail isPyWs (cs.dropWhile isPyWs)).Sublist (cs.dropWhile isPyWs) :=
    dropTrail_sublist _ _
  have hlen : cs.length = (pyStripCs cs).length := by rw [h]
  unfold pyStripCs at hlen
  have hle2 := hsub2.length_le
  have hle1 := hsub1.length_le
  have h1 : cs.dropWhile isPyWs = cs := hsub1.eq_of_length (by omega)
  refine ⟨h1, ?_⟩
  have := h
  unfold pyStripCs at this
  rwa [h1] at this

theorem dropWhile_append_left {p : Char → Bool} {as : List Char} (h : as.dropWhile p ≠ [])
    (bs : List Char) : (as ++ bs).dropWhile p = as.dropWhile p ++ bs := by
  induction as with
  | nil => simp at h
  | cons a as' ih =>
    by_cases hp : p a
    · rw [List.cons_append, List.dropWhile_cons, if_pos hp, List.dropWhile_cons, if_pos hp]
      rw [List.dropWhile_cons, if_pos hp] at h
      exact ih h
    · rw [List.cons_append, List.dropWhile_cons, if_neg hp, List.dropWhile_cons, if_neg hp]
      rfl

theorem dropTrail_append_keep {p : Char → Bool} {ys : List Char} (xs : List Char)
    (hself : dropTrail p ys = ys) (hne : ys ≠ []) :
    dropTrail p (xs ++ ys) = xs ++ ys := by
  have hrev : ys.reverse.dropWhile p = ys.reverse := by
    have h0 := congrArg List.reverse hself
    unfold dropTrail at h0
    rwa [List.reverse_reverse] at h0
  have hrne : ys.reverse.dropWhile p ≠ [] := by
    rw [hrev]
    simpa using hne
  unfold dropTrail
  rw [List.reverse_append, dropWhile_append_left hrne, hrev, List.reverse_append,
    List.reverse_reverse, List.reverse_reverse]

theorem afterFirstColon_append (xs : List Char) (h : ':' ∈ xs) (ys : List Char) :
    afterFirstColon (xs ++ ys) = afterFirstColon xs ++ ys := by
  induction xs with
  | nil => simp at h
  | cons c r ih =>
    by_cases hc : c = ':'
    · simp [afterFirstColon, hc]
    · rcases List.mem_cons.mp h with h1 | h1
      · exact absurd h1.symm hc
      · simp [afterFirstColon, hc, ih h1]

/-- The metadata parser recovers a stripped, newline-free `created` value
verbatim from its header line. -/
theorem metaValue_created (c : String) (hstrip : pyStripS c = c) :
    metaValue ("# Created: " ++ c) = c := by
  obtain ⟨d⟩ := c
  have hstripd : pyStripCs d = d := congrArg String.data hstrip
  cases hd : d with
  | nil =>
    subst hd
    decide
  | cons x xs =>
    subst hd
    obtain ⟨hdw, hdt⟩ := strip_self_parts hstripd
    unfold metaValue
    rw [strData_append]
    show String.mk (pyStripCs (afterFirstColon
      (pyStripCs ("# Created: ".data ++ (x :: xs))))) = String.mk (x :: xs)
    have hlitdw : ("# Created: ".data).dropWhile isPyWs = "# Created: ".data := by decide
    have hs1 : pyStripCs ("# Created: ".data ++ (x :: xs)) =
        "# Created: ".data ++ (x :: xs) := by
      unfold pyStripCs
      rw [dropWhile_append_left (by rw [hlitdw]; decide) (x :: xs), hlitdw]
      exact dropTrail_append_keep _ hdt (fun h => List.noConfusion h)
    rw [hs1, afterFirstColon_append _ (by decide) (x :: xs),
      show afterFirstColon ("# Created: ".data) = [' '] from by decide]
    show String.mk (pyStripCs (' ' :: (x :: xs))) = String.mk (x :: xs)
    have hs2 : pyStripCs (' ' :: (x :: xs)) = x :: xs := by
      unfold pyStripCs
      rw [List.dropWhile_cons, if_pos (by decide), hdw, hdt]
    rw [hs2]

/-- The metadata pass over a freshly saved log file recovers exactly the
`created` / `last_changed` header values (breaking at the CSV header row). -/
theorem loadMetaLoop_saveLines (c lc : String) (rows : List SessionRec) :
    loadMetaLoop (saveLines c lc rows) ⟨none, none⟩ =
      ⟨some (metaValue ("# Created: " ++ c)),
       some (metaValue ("# Last changed: " ++ lc))⟩ := by
  unfold saveLines
  have ha1 : startsWithS "# Created:" ("# Created: " ++ c) = true :=
    startsWithS_append_left (by decide) c
  have hb1 : startsWithS "# Created:" ("# Last changed: " ++ lc) = false := by
    rw [startsWithS_append_of_le (by decide) lc]
    decide
  have hb2 : startsWithS "# Last changed:" ("# Last changed: " ++ lc) = true :=
    startsWithS_append_left (by decide) lc
  have hc1 : startsWithS "# Created:"
      ("# Total time across all sessions (sec): " ++ intToStrS (totalDuration rows)) =
        false := by
    rw [startsWithS_append_of_le (by decide) _]
    decide
  have hc2 : startsWithS "# Last changed:"
      ("# Total time across all sessions (sec): " ++ intToStrS (totalDuration rows)) =
        false := by
    rw [startsWithS_append_of_le (by decide) _]
    decide
  have hc3 : startsWithS "#"
      ("# Total time across all sessions (sec): " ++ intToStrS (totalDuration rows)) =
        true :=
    startsWithS_append_left (by decide) _
  have hd1 : startsWithS "# Created:"
      "# Columns: session_start, session_end, session_duration_sec, window_title" = false := by
    decide
  have hd2 : startsWithS "# Last changed:"
      "# Columns: session_start, session_end, session_duration_sec, window_title" = false := by
    decide
  have hd3 : startsWithS "#"
      "# Columns: session_start, session_end, session_duration_sec, window_title" = true := by
    decide
  have he1 : startsWithS "# Created:"
      (encodeRow ["session_start", "session_end", "session_duration_sec", "window_title"]) =
        false := by decide
  have he2 : startsWithS "# Last changed:"
      (encodeRow ["session_start", "session_end", "session_duration_sec", "window_title"]) =
        false := by decide
  have he3 : startsWithS "#"
      (encodeRow ["session_start", "session_end", "session_duration_sec", "window_title"]) =
        false := by decide
  have he4 : pyStripS
      (encodeRow ["session_start", "session_end", "session_duration_sec", "window_title"]) ≠
        "" := by decide
  simp only [List.cons_append, List.nil_append, loadMetaLoop, ha1, hb1, hb2, hc1, hc2, hc3,
    hd1, hd2, hd3, he1, he2, he3, he4]
  simp
  intro h
  exact absurd h he4

/-- The `'#'` line filter of the loader keeps exactly the CSV header row
and the data rows of a saved file. -/
theorem filter_saveLines (c lc : String) (rows : List SessionRec)
    (hrows : ∀ s ∈ rows, cleanRowB s = true) :
    (saveLines c lc rows).filter (fun l => !startsWithS "#" l) =
      encodeRow ["session_start", "session_end", "session_duration_sec", "window_title"] ::
        rows.map (fun s => encodeRow [s.start, s.stop, intToStrS s.duration, s.window_title]) := by
  unfold saveLines
  have h1 : startsWithS "#" ("# Created: " ++ c) = true :=
    startsWithS_append_left (by decide) c
  have h2 : startsWithS "#" ("# Last changed: " ++ lc) = true :=
    startsWithS_append_left (by decide) lc
  have h3 : startsWithS "#"
      ("# Total time across all sessions (sec): " ++ intToStrS (totalDuration rows)) = true :=
    startsWithS_append_left (by decide) _
  have h4 : startsWithS "#"
      "# Columns: session_start, session_end, session_duration_sec, window_title" = true := by
    decide
  have h5 : startsWithS "#"
      (encodeRow ["session_start", "session_end", "session_duration_sec", "window_title"]) =
        false := by decide
  have hmap : (rows.map fun s =>
      encodeRow [s.start, s.stop, intToStrS s.duration, s.window_title]).filter
        (fun l => !startsWithS "#" l) =
      rows.map fun s => encodeRow [s.start, s.stop, intToStrS s.duration, s.window_title] := by
    rw [List.filter_eq_self]
    intro l hl
    obtain ⟨s, hs, rfl⟩ := List.mem_map.mp hl
    have hclean := hrows s hs
    unfold cleanRowB at hclean
    simp only [Bool.and_eq_true] at hclean
    rw [Bool.not_eq_true'] at hclean
    simp [hclean.2]
  simp only [List.cons_append, List.nil_append, List.filter, h1, h2, h3, h4, h5,
    Bool.not_true, Bool.not_false]
  show encodeRow ["session_start", "session_end", "session_duration_sec", "window_title"] ::
      List.filter (fun l => !startsWithS "#" l)
        (List.map (fun s => encodeRow [s.start, s.stop, intToStrS s.duration, s.window_title])
          rows) = _
  rw [hmap]

/-- The row loop of `load_existing_sessions` maps saved rows back to the
exact session records. -/
theorem parseRowsT_roundtrip (rows : List SessionRec) :
    ∀ acc, parseRowsT
      (rows.map fun s => [s.start, s.stop, intToStrS s.duration, s.window_title]) acc =
      Except.ok (acc ++ rows) := by
  induction rows with
  | nil => intro acc; simp [parseRowsT]
  | cons s rest ih =>
    intro acc
    show parseRowsT ([s.start, s.stop, intToStrS s.duration, s.window_title] ::
      rest.map fun t => [t.start, t.stop, intToStrS t.duration, t.window_title]) acc = _
    show (match pyIntS (intToStrS s.duration) with
      | some n => parseRowsT (rest.map fun t => [t.start, t.stop, intToStrS t.duration,
          t.window_title]) (acc ++ [⟨s.start, s.stop, n, [s.window_title].headD ""⟩])
      | none => Except.error "ValueError") = Except.ok (acc ++ s :: rest)
    rw [pyIntS_intToStrS s.duration]
    show parseRowsT (rest.map fun t => [t.start, t.stop, intToStrS t.duration,
      t.window_title]) (acc ++ [s]) = Except.ok (acc ++ s :: rest)
    rw [ih (acc ++ [s])]
    simp

/-- Loading the rows of a just-saved file recovers the exact session list. -/
theorem load_saveLines (c lc : String) (rows : List SessionRec)
    (hrows : ∀ s ∈ rows, cleanRowB s = true) :
    load_existing_sessions_rows (saveLines c lc rows) = Except.ok rows := by
  unfold load_existing_sessions_rows
  rw [filter_saveLines c lc rows hrows]
  rw [List.map_cons]
  show parseRowsT ((rows.map fun s =>
    encodeRow [s.start, s.stop, intToStrS s.duration, s.window_title]).map decodeRow) [] =
    Except.ok rows
  rw [List.map_map]
  have hcongr : (rows.map (decodeRow ∘ fun s =>
      encodeRow [s.start, s.stop, intToStrS s.duration, s.window_title])) =
      rows.map fun s => [s.start, s.stop, intToStrS s.duration, s.window_title] := by
    apply List.map_congr_left
    intro s _
    exact decodeRow_encodeRow _ (fun h => List.noConfusion h)
  rw [hcongr, parseRowsT_roundtrip rows []]
  simp

/-! ## Claim theorems: SessionStore persistence -/

/-- **C3**: persisting a history, loading it, and persisting again
without new sessions is lossless — the loader returns the identical
ordered session list (so the recomputed `total_duration_seconds`, a sum
over that list, is identical), the metadata pass returns exactly the
persisted `created` value (so `created_at` never changes once set), and a
re-persist with a new `last_changed` stamp reproduces the `# Created`
line and everything from the total line on byte-for-byte.  Hypotheses:
the session fields are newline-free with data lines not starting in `#`
(otherwise they could not live on single lines of the physical file), and
`created` is a stripped, newline-free value as `strftime` produces. -/
theorem c3_idempotent_reload (created lc lc2 : String) (rows : List SessionRec)
    (hrows : ∀ s ∈ rows, cleanRowB s = true) (hcm : cleanMetaB created = true) :
    load_existing_sessions_rows (saveLines created lc rows) = Except.ok rows ∧
    (loadMetaLoop (saveLines created lc rows) ⟨none, none⟩).created = some created ∧
    (saveLines created lc2 rows).take 1 = (saveLines created lc rows).take 1 ∧
    (saveLines created lc2 rows).drop 2 = (saveLines created lc rows).drop 2 := by
  have hself : pyStripS created = created := by
    unfold cleanMetaB at hcm
    rw [Bool.and_eq_true] at hcm
    exact eq_of_beq hcm.2
  refine ⟨load_saveLines created lc rows hrows, ?_, rfl, rfl⟩
  rw [loadMetaLoop_saveLines created lc rows]
  show some (metaValue ("# Created: " ++ created)) = some created
  rw [metaValue_created created hself]

/-- C3 witness: a concrete history whose window title needs CSV quoting
(comma and quote characters) survives the persist–load–persist cycle. -/
theorem c3_idempotent_reload_witness :
    load_existing_sessions_rows (saveLines "2024-01-01 10:00:00" "2024-01-01 11:00:00"
      [⟨"2024-01-01 09:00:00", "2024-01-01 09:01:40", 100, "My, \"House\" - Blender"⟩]) =
      Except.ok
        [⟨"2024-01-01 09:00:00", "2024-01-01 09:01:40", 100, "My, \"House\" - Blender"⟩] ∧
    (loadMetaLoop (saveLines "2024-01-01 10:00:00" "2024-01-01 11:00:00"
      [⟨"2024-01-01 09:00:00", "2024-01-01 09:01:40", 100, "My, \"House\" - Blender"⟩])
      ⟨none, none⟩).created = some "2024-01-01 10:00:00" ∧
    (saveLines "2024-01-01 10:00:00" "2024-01-01 12:00:00"
      [⟨"2024-01-01 09:00:00", "2024-01-01 09:01:40", 100, "My, \"House\" - Blender"⟩]).take 1 =
      (saveLines "2024-01-01 10:00:00" "2024-01-01 11:00:00"
      [⟨"2024-01-01 09:00:00", "2024-01-01 09:01:40", 100, "My, \"House\" - Blender"⟩]).take 1 ∧
    (saveLines "2024-01-01 10:00:00" "2024-01-01 12:00:00"
      [⟨"2024-01-01 09:00:00", "2024-01-01 09:01:40", 100, "My, \"House\" - Blender"⟩]).drop 2 =
      (saveLines "2024-01-01 10:00:00" "2024-01-01 11:00:00"
      [⟨"2024-01-01 09:00:00", "2024-01-01 09:01:40", 100, "My, \"House\" - Blender"⟩]).drop 2 :=
  c3_idempotent_reload "2024-01-01 10:00:00" "2024-01-01 11:00:00" "2024-01-01 12:00:00"
    [⟨"2024-01-01 09:00:00", "2024-01-01 09:01:40", 100, "My, \"House\" - Blender"⟩]
    (by decide) (by decide)

/-- **C1**: a log file whose rows include one short row (skipped by the
`len(row) >= 3` check), one row with a malformed timestamp, and one row
with the non-integer duration `"abc"`.  `load_existing_sessions` calls
`int(row[2])` with no `try`/`except`, so the `"abc"` row raises
`ValueError`, aborting the load (and hence `__init__`/startup) instead of
skipping the row as the claim states.  The visualizer's
`read_project_logs` wraps row parsing in `try`/`except` and behaves as
the claim describes: it skips all three bad rows and totals the remaining
valid row (100 s). -/
theorem c1_corrupt_row_aborts_load :
    load_existing_sessions_rows corruptLog = Except.error "ValueError" ∧
    (read_project_logs_file corruptLog).2 = 100 ∧
    (read_project_logs_file corruptLog).1 =
      [⟨⟨2024, 1, 1, 9, 0, 0⟩, ⟨2024, 1, 1, 9, 1, 40⟩, 100⟩] := by
  refine ⟨rfl, by decide, by decide⟩
